import Mathlib

/-!
Verification of the metadata store facade (ml-metadata `metadata_store.cc`).

The definitions below are a shallow embedding of the C++ source: each Lean
function mirrors one C++ function of the facade.  External collaborators
(the Access Object and the constants of `simple_types_constants.h`) are not
part of the given source tree; definitions for them are modelled from the
specification and marked as such in their doc comments.  Machine integers
are modelled as `Int` (no facade operation here can overflow 64-bit ids),
protobuf `optional` fields as `Option`, and `absl::Status` results as
`Except ErrCode`.
-/

/-- Canonical absl status codes used by the facade. -/
inductive ErrCode where
  | invalidArgument
  | failedPrecondition
  | alreadyExists
  | unimplemented
  | notFound
  | aborted
  | cancelled
  | internal
deriving DecidableEq, Repr

/-- The closed enum of property value kinds (`PropertyType` in the proto). -/
inductive PropertyType where
  | unknownType
  | intType
  | doubleType
  | stringType
  | structType
deriving DecidableEq, Repr

/-- A type record (`ArtifactType` / `ExecutionType` / `ContextType`).  The
facade treats the three variants uniformly through a template; we embed the
common shape once.  `baseType` models the `base_type` proto field together
with its `has_base_type` bit. -/
inductive BaseTypeEnum where
  | unsetBase
  | dataset
  | model
  | metrics
  | statistics
  | train
  | transformRun
  | process
  | evaluate
  | deploy
deriving DecidableEq, Repr

structure MType where
  id : Option Int
  name : String
  version : Option String
  properties : List (String × PropertyType)
  baseType : Option BaseTypeEnum
deriving DecidableEq, Repr

/-- Lookup of a property by name in a property map (the protobuf map is
modelled as an association list with distinct keys). -/
def findProp : List (String × PropertyType) → String → Option PropertyType
  | [], _ => none
  | (k, v) :: rest, key => if k = key then some v else findProp rest key

/-- The loop over `stored_type.properties()` in `CheckFieldsConsistent`
(metadata_store.cc lines 67-88): counts omitted properties, fails on a
conflicting property value type, and fails as soon as a property was
omitted while `can_omit_fields` is false.  Returns the omitted count. -/
def checkStoredProperties :
    List (String × PropertyType) → List (String × PropertyType) → Bool → Nat →
    Except ErrCode Nat
  | [], _, _, omitted => .ok omitted
  | (key, value) :: rest, otherProps, canOmitFields, omitted =>
    match findProp otherProps key with
    | none =>
      if ¬ canOmitFields then .error .failedPrecondition
      else checkStoredProperties rest otherProps canOmitFields (omitted + 1)
    | some otherValue =>
      if otherValue ≠ value then .error .failedPrecondition
      else if omitted > 0 ∧ ¬ canOmitFields then .error .failedPrecondition
      else checkStoredProperties rest otherProps canOmitFields omitted

/-- `CheckFieldsConsistent` (metadata_store.cc lines 55-111): compares a
stored type with an incoming type and, when consistent, returns the stored
type possibly extended with the new properties of the incoming type. -/
def checkFieldsConsistent (storedType otherType : MType)
    (canAddFields canOmitFields : Bool) : Except ErrCode MType :=
  if storedType.name ≠ otherType.name then .error .failedPrecondition
  else
    match checkStoredProperties storedType.properties otherType.properties
        canOmitFields 0 with
    | .error e => .error e
    | .ok omitted =>
      if storedType.properties.length - omitted = otherType.properties.length then
        .ok storedType
      else if ¬ canAddFields then .error .failedPrecondition
      else
        .ok { storedType with
              properties := storedType.properties ++
                otherType.properties.filter
                  (fun p => (findProp storedType.properties p.1).isNone) }

/-- Per-variant type storage.  `types` holds the rows of the variant's type
table (each with an assigned id), `parentLinks` the ParentType rows as
(child type id, parent type id) pairs. -/
structure TypeStore where
  types : List MType
  parentLinks : List (Int × Int)
  nextId : Int
deriving DecidableEq, Repr

/-- Modelled from the spec: Access Object `FindTypeByNameAndVersion`;
missing type yields NOT_FOUND. -/
def findTypeByNameAndVersion (name : String) (version : Option String)
    (st : TypeStore) : Except ErrCode MType :=
  match st.types.find? (fun t => t.name == name && t.version == version) with
  | some t => .ok t
  | none => .error .notFound

/-- Modelled from the spec: Access Object `CreateType`; assigns the next id
and appends the row. -/
def createType (t : MType) (st : TypeStore) : Int × TypeStore :=
  (st.nextId,
    { st with
      types := st.types ++ [{ t with id := some st.nextId }],
      nextId := st.nextId + 1 })

/-- Modelled from the spec: Access Object `UpdateType`; replaces the row
with the matching id. -/
def updateType (u : MType) (st : TypeStore) : Except ErrCode TypeStore :=
  if st.types.any (fun s => s.id == u.id) then
    .ok { st with types := st.types.map (fun s => if s.id == u.id then u else s) }
  else .error .notFound

/-- Modelled from the spec: the closed mapping between system-type enum
values and simple type names (`simple_types_util`). -/
def systemTypeName : BaseTypeEnum → String
  | .unsetBase => ""
  | .dataset => "mlmd.Dataset"
  | .model => "mlmd.Model"
  | .metrics => "mlmd.Metrics"
  | .statistics => "mlmd.Statistics"
  | .train => "mlmd.Train"
  | .transformRun => "mlmd.Transform"
  | .process => "mlmd.Process"
  | .evaluate => "mlmd.Evaluate"
  | .deploy => "mlmd.Deploy"

/-- Modelled from the spec: `GetSystemTypeEnum`, the inverse of the closed
name mapping; an unrecognized parent name has no enum. -/
def systemTypeEnumOf (name : String) : Option BaseTypeEnum :=
  if name = "mlmd.Dataset" then some .dataset
  else if name = "mlmd.Model" then some .model
  else if name = "mlmd.Metrics" then some .metrics
  else if name = "mlmd.Statistics" then some .statistics
  else if name = "mlmd.Train" then some .train
  else if name = "mlmd.Transform" then some .transformRun
  else if name = "mlmd.Process" then some .process
  else if name = "mlmd.Evaluate" then some .evaluate
  else if name = "mlmd.Deploy" then some .deploy
  else none

/-- Modelled from the spec: Access Object `FindParentTypesByTypeId` for a
single type id.  At most one parent is expected; more than one yields
FAILED_PRECONDITION (spec 4.D). -/
def findParentTypeByTypeId (typeId : Int) (st : TypeStore) :
    Except ErrCode (Option MType) :=
  match (st.parentLinks.filter (fun l => l.1 == typeId)).map Prod.snd with
  | [] => .ok none
  | [parentId] =>
    match st.types.find? (fun t => t.id == some parentId) with
    | some p => .ok (some p)
    | none => .error .notFound
  | _ => .error .failedPrecondition

/-- `UpsertTypeInheritanceLink` (metadata_store.cc lines 128-158): creates
the ParentType link demanded by the request type's `base_type` field. -/
def upsertTypeInheritanceLink (t : MType) (typeId : Int) (st : TypeStore) :
    Except ErrCode TypeStore :=
  match t.baseType with
  | none => .ok st
  | some ext =>
    if ext = BaseTypeEnum.unsetBase then .error .unimplemented
    else
      match findParentTypeByTypeId typeId st with
      | .error e => .error e
      | .ok none =>
        match findTypeByNameAndVersion (systemTypeName ext) none st with
        | .error e => .error e
        | .ok baseType =>
          .ok { st with
                parentLinks := st.parentLinks ++ [(typeId, baseType.id.getD 0)] }
      | .ok (some parent) =>
        if parent.name ≠ systemTypeName ext then .error .unimplemented
        else .ok st

/-- `UpsertType` (metadata_store.cc lines 173-204): find-or-create by
(name, version); on an existing type run the consistency check, surface a
check failure as ALREADY_EXISTS, persist the merged type, then apply the
inheritance link. -/
def upsertType (t : MType) (canAddFields canOmitFields : Bool)
    (st : TypeStore) : Except ErrCode (Int × TypeStore) :=
  match findTypeByNameAndVersion t.name t.version st with
  | .error e =>
    if e = ErrCode.notFound then
      let r := createType t st
      (upsertTypeInheritanceLink t r.1 r.2).map (fun st2 => (r.1, st2))
    else .error e
  | .ok stored =>
    let typeId := stored.id.getD 0
    match checkFieldsConsistent stored t canAddFields canOmitFields with
    | .error _ => .error ErrCode.alreadyExists
    | .ok output =>
      (updateType output st).bind (fun st1 =>
        (upsertTypeInheritanceLink t typeId st1).map (fun st2 => (typeId, st2)))

/-- `GetRequestTypeVersion` (metadata_store.cc lines 386-391): an empty
`type_version` string is coerced to absent. -/
def getRequestTypeVersion (typeVersion : Option String) : Option String :=
  match typeVersion with
  | some v => if v = "" then none else some v
  | none => none

/-- Modelled from the spec: Access Object `FindTypeById`. -/
def findTypeById (typeId : Int) (st : TypeStore) : Except ErrCode MType :=
  match st.types.find? (fun t => t.id == some typeId) with
  | some t => .ok t
  | none => .error .notFound

/-- `SetBaseType` (metadata_store.cc lines 397-419) restricted to one type:
resolve the parent link and populate `base_type` through the closed enum
mapping; an unrecognized parent name is a precondition failure. -/
def setBaseTypeOne (t : MType) (st : TypeStore) : Except ErrCode MType :=
  match findParentTypeByTypeId (t.id.getD 0) st with
  | .error e => .error e
  | .ok none => .ok t
  | .ok (some parent) =>
    match systemTypeEnumOf parent.name with
    | some en => .ok { t with baseType := some en }
    | none => .error .failedPrecondition

/-- `SetBaseType` over a batch of types (the source batches the parent
lookup; the per-type behaviour is identical). -/
def setBaseTypes (ts : List MType) (st : TypeStore) : Except ErrCode (List MType) :=
  match ts with
  | [] => .ok []
  | t :: rest =>
    (setBaseTypeOne t st).bind (fun t1 =>
      (setBaseTypes rest st).map (fun rest1 => t1 :: rest1))

/-- `MetadataStore::GetArtifactType` (metadata_store.cc lines 522-538):
find by name and coerced version, then populate `base_type`.  Any error of
the find, including NOT_FOUND, is propagated. -/
def getArtifactType (typeName : String) (typeVersion : Option String)
    (st : TypeStore) : Except ErrCode MType :=
  match findTypeByNameAndVersion typeName (getRequestTypeVersion typeVersion) st with
  | .error e => .error e
  | .ok t => setBaseTypeOne t st

/-- `MetadataStore::GetExecutionType` (metadata_store.cc lines 540-557):
same shape as the artifact variant. -/
def getExecutionType (typeName : String) (typeVersion : Option String)
    (st : TypeStore) : Except ErrCode MType :=
  match findTypeByNameAndVersion typeName (getRequestTypeVersion typeVersion) st with
  | .error e => .error e
  | .ok t => setBaseTypeOne t st

/-- `MetadataStore::GetContextType` (metadata_store.cc lines 559-569): the
find result, base type not populated for contexts. -/
def getContextType (typeName : String) (typeVersion : Option String)
    (st : TypeStore) : Except ErrCode MType :=
  findTypeByNameAndVersion typeName (getRequestTypeVersion typeVersion) st

/-- The id loop of `Get{Artifact,Execution,Context}TypesByID`
(metadata_store.cc lines 571-645): look up each id, silently skip ids that
are not found, propagate any other error. -/
def collectTypesByIds : List Int → TypeStore → Except ErrCode (List MType)
  | [], _ => .ok []
  | typeId :: rest, st =>
    match findTypeById typeId st with
    | .ok t => (collectTypesByIds rest st).map (fun ts => t :: ts)
    | .error e =>
      if e = ErrCode.notFound then collectTypesByIds rest st else .error e

/-- `MetadataStore::GetArtifactTypesByID` (metadata_store.cc lines
571-597): collect the found types, then populate base types. -/
def getArtifactTypesByID (typeIds : List Int) (st : TypeStore) :
    Except ErrCode (List MType) :=
  (collectTypesByIds typeIds st).bind (fun ts => setBaseTypes ts st)

/-- `MetadataStore::GetContextTypesByID` (metadata_store.cc lines 626-645):
the collect loop only; no base type population for contexts. -/
def getContextTypesByID (typeIds : List Int) (st : TypeStore) :
    Except ErrCode (List MType) :=
  collectTypesByIds typeIds st

/-- Modelled from the spec: the seeded simple type names of
`simple_types_constants.h` (the "known excluded list"). -/
def kSimpleTypeNames : List String :=
  ["mlmd.Dataset", "mlmd.Model", "mlmd.Metrics", "mlmd.Statistics",
   "mlmd.Train", "mlmd.Transform", "mlmd.Process", "mlmd.Evaluate",
   "mlmd.Deploy"]

/-- `MetadataStore::GetArtifactTypes` (metadata_store.cc lines 1062-1095):
list all artifact types, filter out the seeded simple types, populate base
types. -/
def getArtifactTypes (st : TypeStore) : Except ErrCode (List MType) :=
  setBaseTypes (st.types.filter (fun t => !(kSimpleTypeNames.contains t.name))) st

/-- `MetadataStore::GetExecutionTypes` (metadata_store.cc lines 1097-1130):
same shape as the artifact variant. -/
def getExecutionTypes (st : TypeStore) : Except ErrCode (List MType) :=
  setBaseTypes (st.types.filter (fun t => !(kSimpleTypeNames.contains t.name))) st

/-- `MetadataStore::GetContextTypes` (metadata_store.cc lines 1132-1151):
copies every stored context type; the source applies no simple-type filter
here and does not populate base types. -/
def getContextTypes (st : TypeStore) : Except ErrCode (List MType) :=
  .ok st.types

/-- An artifact row; only the fields the verified paths touch. -/
structure Artifact where
  id : Option Int
  type_id : Option Int
  uri : Option String
deriving DecidableEq, Repr

/-- An execution row. -/
structure Execution where
  id : Option Int
  type_id : Option Int
deriving DecidableEq, Repr

/-- A context row. -/
structure Context where
  id : Option Int
  type_id : Option Int
  name : Option String
deriving DecidableEq, Repr

/-- An event; `artifact_id` and `execution_id` model the proto optionals. -/
structure Event where
  artifact_id : Option Int
  execution_id : Option Int
deriving DecidableEq, Repr

/-- A ParentContext request entry. -/
structure ParentContext where
  parent_id : Option Int
  child_id : Option Int
deriving DecidableEq, Repr

/-- The entity tables of the storage backend.  `associations` are
(context id, execution id) pairs, `attributions` (context id, artifact id)
pairs, `parentContexts` (parent id, child id) pairs. -/
structure Store where
  artifacts : List Artifact
  executions : List Execution
  contexts : List Context
  events : List Event
  associations : List (Int × Int)
  attributions : List (Int × Int)
  parentContexts : List (Int × Int)
  nextArtifactId : Int
  nextExecutionId : Int
  nextContextId : Int
deriving DecidableEq, Repr

/-- Modelled from the spec: Access Object `CreateArtifact`. -/
def createArtifact (a : Artifact) (st : Store) : Int × Store :=
  (st.nextArtifactId,
    { st with
      artifacts := st.artifacts ++ [{ a with id := some st.nextArtifactId }],
      nextArtifactId := st.nextArtifactId + 1 })

/-- Modelled from the spec: Access Object `UpdateArtifact`; the row with the
matching id is replaced, a missing row is NOT_FOUND. -/
def updateArtifact (a : Artifact) (st : Store) : Except ErrCode Store :=
  if st.artifacts.any (fun s => s.id == a.id) then
    .ok { st with artifacts := st.artifacts.map (fun s => if s.id == a.id then a else s) }
  else .error .notFound

/-- `UpsertArtifact` (metadata_store.cc lines 252-264): update when an id is
given, create otherwise. -/
def upsertArtifact (a : Artifact) (st : Store) : Except ErrCode (Int × Store) :=
  match a.id with
  | some i => (updateArtifact a st).map (fun st1 => (i, st1))
  | none => .ok (createArtifact a st)

/-- Modelled from the spec: Access Object `CreateExecution`. -/
def createExecution (e : Execution) (st : Store) : Int × Store :=
  (st.nextExecutionId,
    { st with
      executions := st.executions ++ [{ e with id := some st.nextExecutionId }],
      nextExecutionId := st.nextExecutionId + 1 })

/-- Modelled from the spec: Access Object `UpdateExecution`. -/
def updateExecution (e : Execution) (st : Store) : Except ErrCode Store :=
  if st.executions.any (fun s => s.id == e.id) then
    .ok { st with executions := st.executions.map (fun s => if s.id == e.id then e else s) }
  else .error .notFound

/-- `UpsertExecution` (metadata_store.cc lines 268-280). -/
def upsertExecution (e : Execution) (st : Store) : Except ErrCode (Int × Store) :=
  match e.id with
  | some i => (updateExecution e st).map (fun st1 => (i, st1))
  | none => .ok (createExecution e st)

/-- Modelled from the spec: Access Object `CreateContext`; the unique
(type_id, name) constraint makes a duplicate an ALREADY_EXISTS failure. -/
def createContext (c : Context) (st : Store) : Except ErrCode (Int × Store) :=
  if st.contexts.any (fun s =>
      s.type_id.getD 0 == c.type_id.getD 0 && s.name.getD "" == c.name.getD "") then
    .error .alreadyExists
  else
    .ok (st.nextContextId,
      { st with
        contexts := st.contexts ++ [{ c with id := some st.nextContextId }],
        nextContextId := st.nextContextId + 1 })

/-- Modelled from the spec: Access Object `UpdateContext`. -/
def updateContext (c : Context) (st : Store) : Except ErrCode Store :=
  if st.contexts.any (fun s => s.id == c.id) then
    .ok { st with contexts := st.contexts.map (fun s => if s.id == c.id then c else s) }
  else .error .notFound

/-- `UpsertContext` (metadata_store.cc lines 284-296). -/
def upsertContext (c : Context) (st : Store) : Except ErrCode (Int × Store) :=
  match c.id with
  | some i => (updateContext c st).map (fun st1 => (i, st1))
  | none => createContext c st

/-- Modelled from the spec: Access Object `CreateEvent` appends the row. -/
def createEvent (e : Event) (st : Store) : Store :=
  { st with events := st.events ++ [e] }

/-- Modelled from the spec: Access Object `CreateAssociation`; the unique
(context_id, execution_id) pair makes a duplicate ALREADY_EXISTS. -/
def createAssociation (contextId executionId : Int) (st : Store) :
    Except ErrCode Store :=
  if st.associations.contains (contextId, executionId) then .error .alreadyExists
  else .ok { st with associations := st.associations ++ [(contextId, executionId)] }

/-- Modelled from the spec: Access Object `CreateAttribution`; set
semantics as for associations. -/
def createAttribution (contextId artifactId : Int) (st : Store) :
    Except ErrCode Store :=
  if st.attributions.contains (contextId, artifactId) then .error .alreadyExists
  else .ok { st with attributions := st.attributions ++ [(contextId, artifactId)] }

/-- Modelled from the spec: Access Object `CreateParentContext`; set
semantics, a duplicate pair is ALREADY_EXISTS (as for associations). -/
def createParentContext (pc : ParentContext) (st : Store) : Except ErrCode Store :=
  if st.parentContexts.contains (pc.parent_id.getD 0, pc.child_id.getD 0) then
    .error .alreadyExists
  else
    .ok { st with
          parentContexts :=
            st.parentContexts ++ [(pc.parent_id.getD 0, pc.child_id.getD 0)] }

/-- The status handling shared by `InsertAssociationIfNotExist` and
`InsertAttributionIfNotExist` (metadata_store.cc lines 298-328): an
ALREADY_EXISTS outcome of the create is swallowed, leaving the original
store; any other error is propagated. -/
def swallowAlreadyExists (result : Except ErrCode Store) (st : Store) :
    Except ErrCode Store :=
  match result with
  | .ok st1 => .ok st1
  | .error e => if e = ErrCode.alreadyExists then .ok st else .error e

/-- `InsertAssociationIfNotExist` (metadata_store.cc lines 298-312). -/
def insertAssociationIfNotExist (contextId executionId : Int) (st : Store) :
    Except ErrCode Store :=
  swallowAlreadyExists (createAssociation contextId executionId st) st

/-- `InsertAttributionIfNotExist` (metadata_store.cc lines 314-328). -/
def insertAttributionIfNotExist (contextId artifactId : Int) (st : Store) :
    Except ErrCode Store :=
  swallowAlreadyExists (createAttribution contextId artifactId st) st

/-- `MetadataStore::PutAttributionsAndAssociations` (metadata_store.cc
lines 1403-1422). -/
def putAttributionsAndAssociations (attrs assocs : List (Int × Int))
    (st : Store) : Except ErrCode Store :=
  match attrs with
  | (c, a) :: rest =>
    (insertAttributionIfNotExist c a st).bind
      (putAttributionsAndAssociations rest assocs)
  | [] =>
    match assocs with
    | (c, e) :: rest =>
      (insertAssociationIfNotExist c e st).bind
        (putAttributionsAndAssociations [] rest)
    | [] => .ok st

/-- `MetadataStore::PutParentContexts` (metadata_store.cc lines 1424-1437):
calls the create operation directly and propagates every error, including
ALREADY_EXISTS. -/
def putParentContexts : List ParentContext → Store → Except ErrCode Store
  | [], st => .ok st
  | pc :: rest, st => (createParentContext pc st).bind (putParentContexts rest)

/-- An `artifact_event_pairs` entry of a PutExecution request. -/
structure ArtifactAndEvent where
  artifact : Option Artifact
  event : Option Event
deriving DecidableEq, Repr

/-- `UpsertArtifactAndEvent` (metadata_store.cc lines 334-383).  The
`artifactId` argument models the caller's in/out `artifact_id` variable:
it is returned untouched when the pair carries neither artifact nor
event. -/
def upsertArtifactAndEvent (pair : ArtifactAndEvent) (artifactId : Int)
    (st : Store) : Except ErrCode (Int × Store) :=
  if pair.artifact = none ∧ pair.event = none then .ok (artifactId, st)
  else
    let maybeEventArtifactId : Option Int := pair.event.bind (fun e => e.artifact_id)
    if pair.artifact = none ∧ maybeEventArtifactId = none then
      .error .invalidArgument
    else
      let maybeArtifactId : Option Int := pair.artifact.bind (fun a => a.id)
      if pair.artifact.isSome ∧ maybeEventArtifactId.isSome ∧
          maybeArtifactId ≠ maybeEventArtifactId then
        .error .invalidArgument
      else
        let upsertResult : Except ErrCode (Int × Store) :=
          match pair.artifact with
          | some a => upsertArtifact a st
          | none => .ok (artifactId, st)
        upsertResult.bind (fun r =>
          match pair.event with
          | none => .ok r
          | some e =>
            match pair.artifact with
            | some _ => .ok (r.1, createEvent { e with artifact_id := some r.1 } r.2)
            | none => .ok (e.artifact_id.getD 0, createEvent e r.2))

/-- The `artifact_event_pairs` loop of `MetadataStore::PutExecution`
(metadata_store.cc lines 847-866): validate a given event's execution id
against the request execution, stamp the captured execution id into the
event, then upsert the pair; the produced artifact ids are collected in
request order. -/
def processPairs (execution : Execution) (executionId : Int) :
    List ArtifactAndEvent → Store → Except ErrCode (List Int × Store)
  | [], st => .ok ([], st)
  | pair :: rest, st =>
    let validated : Except ErrCode ArtifactAndEvent :=
      match pair.event with
      | none => .ok pair
      | some ev =>
        if ev.execution_id.isSome ∧
            (execution.id = none ∨ execution.id ≠ ev.execution_id) then
          .error .invalidArgument
        else .ok { pair with event := some { ev with execution_id := some executionId } }
    validated.bind (fun pair2 =>
      (upsertArtifactAndEvent pair2 (-1) st).bind (fun r =>
        (processPairs execution executionId rest r.2).map (fun q =>
          (r.1 :: q.1, q.2))))

/-- Modelled from the spec: Access Object
`FindContextByTypeIdAndContextName` over the unique (type_id, name) key. -/
def findContextByTypeIdAndContextName (typeId : Int) (name : String)
    (st : Store) : Except ErrCode Context :=
  match st.contexts.find? (fun c =>
      c.type_id.getD 0 == typeId && c.name.getD "" == name) with
  | some c => .ok c
  | none => .error .notFound

/-- The context id resolution of `MetadataStore::PutExecution`
(metadata_store.cc lines 868-896), with the two Access Object calls passed
in as results: when `reuse` is set and the context has no id, a successful
lookup is adopted; otherwise the upsert result is used, and an
ALREADY_EXISTS upsert outcome under `reuse` (the concurrent-writer race)
becomes ABORTED. -/
def resolveContextId (reuse : Bool) (ctx : Context)
    (lookupResult : Except ErrCode Context)
    (upsertResult : Except ErrCode (Int × Store)) (st : Store) :
    Except ErrCode (Int × Store) :=
  let byUpsert : Except ErrCode (Int × Store) :=
    match upsertResult with
    | .error e =>
      if reuse ∧ e = ErrCode.alreadyExists then .error ErrCode.aborted
      else .error e
    | .ok r => .ok r
  if reuse ∧ ctx.id = none then
    match lookupResult with
    | .error e => if e = ErrCode.notFound then byUpsert else .error e
    | .ok c => if c.id.getD 0 = -1 then byUpsert else .ok (c.id.getD 0, st)
  else byUpsert

/-- Attribution inserts for every captured artifact id of the response
(metadata_store.cc lines 900-903). -/
def insertAttributionsForArtifacts (contextId : Int) :
    List Int → Store → Except ErrCode Store
  | [], st => .ok st
  | artifactId :: rest, st =>
    (insertAttributionIfNotExist contextId artifactId st).bind
      (insertAttributionsForArtifacts contextId rest)

/-- The `contexts` loop of `MetadataStore::PutExecution` (metadata_store.cc
lines 867-904): resolve each context's id, then insert the association and
the attributions for all captured artifact ids. -/
def processContexts (reuse : Bool) (executionId : Int) (artifactIds : List Int) :
    List Context → Store → Except ErrCode (List Int × Store)
  | [], st => .ok ([], st)
  | ctx :: rest, st =>
    (resolveContextId reuse ctx
        (findContextByTypeIdAndContextName (ctx.type_id.getD 0) (ctx.name.getD "") st)
        (upsertContext ctx st) st).bind (fun r =>
      (insertAssociationIfNotExist r.1 executionId r.2).bind (fun st2 =>
        (insertAttributionsForArtifacts r.1 artifactIds st2).bind (fun st3 =>
          (processContexts reuse executionId artifactIds rest st3).map (fun q =>
            (r.1 :: q.1, q.2)))))

/-- A PutExecution request (execution, pairs, contexts and the
`reuse_context_if_already_exist` option). -/
structure PutExecutionRequest where
  execution : Option Execution
  artifact_event_pairs : List ArtifactAndEvent
  contexts : List Context
  reuse_context_if_already_exist : Bool
deriving DecidableEq, Repr

/-- A PutExecution response. -/
structure PutExecutionResponse where
  execution_id : Int
  artifact_ids : List Int
  context_ids : List Int
deriving DecidableEq, Repr

/-- `MetadataStore::PutExecution` (metadata_store.cc lines 832-908): the
composite write; an error leaves the store untouched (the enclosing
transaction rolls back). -/
def putExecution (req : PutExecutionRequest) (st : Store) :
    Except ErrCode (PutExecutionResponse × Store) :=
  match req.execution with
  | none => .error .invalidArgument
  | some execution =>
    (upsertExecution execution st).bind (fun r =>
      (processPairs execution r.1 req.artifact_event_pairs r.2).bind (fun p =>
        (processContexts req.reuse_context_if_already_exist r.1 p.1
            req.contexts p.2).map (fun q =>
          ({ execution_id := r.1, artifact_ids := p.1, context_ids := q.1 }, q.2))))

/-- A GetLineageGraph request: the presence bit of `artifacts_options`
(the seed filter itself is run by the Access Object), the stop conditions
and `max_node_size`.  Empty boundary strings model unset boundaries. -/
structure LineageGraphRequest where
  has_artifacts_options : Bool
  max_num_hops : Option Int
  max_node_size : Int
  boundary_artifacts : String
  boundary_executions : String
deriving DecidableEq, Repr

/-- The arguments `GetLineageGraph` hands to the Access Object's
`QueryLineageGraph`; the resulting subgraph is returned verbatim, so the
call descriptor is the observable output of the facade. -/
structure LineageGraphCall where
  seeds : List Artifact
  max_num_hops : Int
  max_node_size : Option Int
  boundary_artifacts : Option String
  boundary_executions : Option String
deriving DecidableEq, Repr

/-- `MetadataStore::GetLineageGraph` (metadata_store.cc lines 1569-1630)
with the seed artifact query result passed in: validate options and clamp
`max_num_hops` to [0, 20] before the transaction, fail with NOT_FOUND on an
empty seed set, truncate the seed list to `max_node_size`, and delegate. -/
def getLineageGraph (req : LineageGraphRequest)
    (seedQueryResult : Except ErrCode (List Artifact)) :
    Except ErrCode LineageGraphCall :=
  if ¬ req.has_artifacts_options then .error .invalidArgument
  else
    let hopsResult : Except ErrCode Int :=
      match req.max_num_hops with
      | some h => if h < 0 then .error .invalidArgument else .ok (min 20 h)
      | none => .ok 20
    hopsResult.bind (fun maxNumHops =>
      seedQueryResult.bind (fun artifacts =>
        if artifacts.isEmpty then .error .notFound
        else
          let seeds :=
            if req.max_node_size > 0 ∧ (artifacts.length : Int) > req.max_node_size
            then artifacts.take req.max_node_size.toNat
            else artifacts
          .ok { seeds := seeds,
                max_num_hops := maxNumHops,
                max_node_size :=
                  if req.max_node_size > 0 then some req.max_node_size else none,
                boundary_artifacts :=
                  if req.boundary_artifacts ≠ "" then some req.boundary_artifacts
                  else none,
                boundary_executions :=
                  if req.boundary_executions ≠ "" then some req.boundary_executions
                  else none }))

/-!  ## Theorems -/

/-- C2: For each type in a Put*Type or PutTypes request: when no type with
the request's (name, version) exists, a new type is created and
`can_add_fields` (and `can_omit_fields`) is ignored; when one exists and
the consistency check fails, the operation returns ALREADY_EXISTS; on a
successful check the merged schema is persisted through the update-type
operation and base-type linking is then applied. -/
theorem upsertType_branches :
    (∀ (t : MType) (ca ca' co co' : Bool) (st : TypeStore),
        findTypeByNameAndVersion t.name t.version st = .error .notFound →
        upsertType t ca co st = upsertType t ca' co' st) ∧
    (∀ (t : MType) (ca co : Bool) (st : TypeStore),
        findTypeByNameAndVersion t.name t.version st = .error .notFound →
        t.baseType = none →
        upsertType t ca co st = .ok (st.nextId, (createType t st).2)) ∧
    (∀ (t : MType) (ca co : Bool) (st : TypeStore) (stored : MType) (e : ErrCode),
        findTypeByNameAndVersion t.name t.version st = .ok stored →
        checkFieldsConsistent stored t ca co = .error e →
        upsertType t ca co st = .error .alreadyExists) ∧
    (∀ (t : MType) (ca co : Bool) (st : TypeStore) (stored u : MType),
        findTypeByNameAndVersion t.name t.version st = .ok stored →
        checkFieldsConsistent stored t ca co = .ok u →
        upsertType t ca co st =
          (updateType u st).bind (fun st1 =>
            (upsertTypeInheritanceLink t (stored.id.getD 0) st1).map
              (fun st2 => (stored.id.getD 0, st2)))) := by
  refine ⟨?_, ?_, ?_, ?_⟩
  · intro t ca ca' co co' st h
    simp [upsertType, h]
  · intro t ca co st h hbase
    simp [upsertType, h, upsertTypeInheritanceLink, hbase, Except.map, createType]
  · intro t ca co st stored e h hc
    simp [upsertType, h, hc]
  · intro t ca co st stored u h hc
    simp [upsertType, h, hc]

/-- Witness for C2 at concrete inputs: a create on an empty store and an
ALREADY_EXISTS on a conflicting re-put. -/
theorem upsertType_branches_witness :
    upsertType ⟨none, "Img", none, [("u", .stringType)], none⟩ true false
        ⟨[], [], 1⟩ =
      .ok (1, (createType ⟨none, "Img", none, [("u", .stringType)], none⟩
        ⟨[], [], 1⟩).2) ∧
    upsertType ⟨none, "Img", none, [("u", .intType)], none⟩ true true
        ⟨[⟨some 1, "Img", none, [("u", .stringType)], none⟩], [], 2⟩ =
      .error .alreadyExists := by
  constructor
  · exact upsertType_branches.2.1 ⟨none, "Img", none, [("u", .stringType)], none⟩
      true false ⟨[], [], 1⟩ rfl rfl
  · exact upsertType_branches.2.2.1 ⟨none, "Img", none, [("u", .intType)], none⟩
      true true ⟨[⟨some 1, "Img", none, [("u", .stringType)], none⟩], [], 2⟩
      ⟨some 1, "Img", none, [("u", .stringType)], none⟩
      ErrCode.failedPrecondition rfl rfl

/-- C4: Under `reuse_context_if_already_exist`, a context without an id
first adopts the id of an existing context found by (type_id, name); when
the lookup finds nothing and the upsert reports ALREADY_EXISTS (the
request lost the race against a concurrent writer), the transaction is
aborted with ABORTED. -/
theorem resolveContextId_reuse :
    (∀ (ctx c : Context) (i : Int)
        (upsertResult : Except ErrCode (Int × Store)) (st : Store),
        ctx.id = none → c.id = some i → i ≠ -1 →
        resolveContextId true ctx (.ok c) upsertResult st = .ok (i, st)) ∧
    (∀ (ctx : Context) (st : Store),
        ctx.id = none →
        resolveContextId true ctx (.error .notFound) (.error .alreadyExists) st =
          .error .aborted) := by
  constructor
  · intro ctx c i upsertResult st hid hcid hne
    simp [resolveContextId, hid, hcid, hne]
  · intro ctx st hid
    simp [resolveContextId, hid]

/-- Witness for C4 at concrete inputs: adoption of id 4, and the ABORTED
race outcome. -/
theorem resolveContextId_reuse_witness :
    resolveContextId true ⟨none, some 9, some "run"⟩
        (.ok ⟨some 4, some 9, some "run"⟩) (.error .notFound)
        ⟨[], [], [], [], [], [], [], 1, 1, 1⟩ =
      .ok (4, ⟨[], [], [], [], [], [], [], 1, 1, 1⟩) ∧
    resolveContextId true ⟨none, some 9, some "run"⟩ (.error .notFound)
        (.error .alreadyExists) ⟨[], [], [], [], [], [], [], 1, 1, 1⟩ =
      .error .aborted := by
  constructor
  · exact resolveContextId_reuse.1 ⟨none, some 9, some "run"⟩
      ⟨some 4, some 9, some "run"⟩ 4 (.error .notFound)
      ⟨[], [], [], [], [], [], [], 1, 1, 1⟩ rfl rfl (by decide)
  · exact resolveContextId_reuse.2 ⟨none, some 9, some "run"⟩
      ⟨[], [], [], [], [], [], [], 1, 1, 1⟩ rfl

/-- A successful find-by-name-and-version returns a stored row with exactly
the requested name and version. -/
theorem findTypeByNameAndVersion_ok {name : String} {version : Option String}
    {st : TypeStore} {t : MType}
    (h : findTypeByNameAndVersion name version st = .ok t) :
    t.name = name ∧ t.version = version ∧ t ∈ st.types := by
  unfold findTypeByNameAndVersion at h
  cases hf : st.types.find? (fun t2 => t2.name == name && t2.version == version) with
  | none => rw [hf] at h; cases h
  | some t2 =>
    rw [hf] at h
    injection h with h'
    subst h'
    have hp := List.find?_some hf
    have hm := List.mem_of_find?_eq_some hf
    simp only [Bool.and_eq_true, beq_iff_eq] at hp
    exact ⟨hp.1, hp.2, hm⟩

/-- C7: base-type linking on a type upsert: the reserved unset sentinel is
UNIMPLEMENTED; with no current parent a ParentType link to the base type
located by name (without version) is created, and a second identical
request is a no-op leaving exactly one ParentType row; a single existing
parent with a different name is UNIMPLEMENTED; a request type without a
`base_type` descriptor is a no-op. -/
theorem upsertTypeInheritanceLink_cases :
    (∀ (t : MType) (tid : Int) (st : TypeStore),
        t.baseType = none → upsertTypeInheritanceLink t tid st = .ok st) ∧
    (∀ (t : MType) (tid : Int) (st : TypeStore),
        t.baseType = some .unsetBase →
        upsertTypeInheritanceLink t tid st = .error .unimplemented) ∧
    (∀ (t : MType) (tid : Int) (st : TypeStore) (b : BaseTypeEnum)
        (base : MType) (bid : Int),
        t.baseType = some b → b ≠ .unsetBase →
        st.parentLinks.filter (fun l => l.1 == tid) = [] →
        findTypeByNameAndVersion (systemTypeName b) none st = .ok base →
        base.id = some bid →
        st.types.find? (fun t2 => t2.id == some bid) = some base →
        upsertTypeInheritanceLink t tid st =
          .ok { st with parentLinks := st.parentLinks ++ [(tid, bid)] } ∧
        upsertTypeInheritanceLink t tid
            { st with parentLinks := st.parentLinks ++ [(tid, bid)] } =
          .ok { st with parentLinks := st.parentLinks ++ [(tid, bid)] } ∧
        (({ st with parentLinks := st.parentLinks ++ [(tid, bid)] } :
            TypeStore).parentLinks.filter (fun l => l.1 == tid)).length = 1) ∧
    (∀ (t : MType) (tid : Int) (st : TypeStore) (b : BaseTypeEnum) (parent : MType),
        t.baseType = some b → b ≠ .unsetBase →
        findParentTypeByTypeId tid st = .ok (some parent) →
        (parent.name = systemTypeName b →
          upsertTypeInheritanceLink t tid st = .ok st) ∧
        (parent.name ≠ systemTypeName b →
          upsertTypeInheritanceLink t tid st = .error .unimplemented)) := by
  refine ⟨?_, ?_, ?_, ?_⟩
  · intro t tid st h
    simp [upsertTypeInheritanceLink, h]
  · intro t tid st h
    simp [upsertTypeInheritanceLink, h]
  · intro t tid st b base bid hbase hb hfilter hfind hbid hfind2
    have hname : base.name = systemTypeName b := (findTypeByNameAndVersion_ok hfind).1
    have hlink1 : findParentTypeByTypeId tid st = .ok none := by
      simp [findParentTypeByTypeId, hfilter]
    have hfl : (st.parentLinks ++ [(tid, bid)]).filter (fun l => l.1 == tid) =
        [(tid, bid)] := by
      rw [List.filter_append, hfilter]
      simp
    have hlink2 : findParentTypeByTypeId tid
        { st with parentLinks := st.parentLinks ++ [(tid, bid)] } =
        .ok (some base) := by
      simp only [findParentTypeByTypeId, hfl]
      simp [hfind2]
    refine ⟨?_, ?_, ?_⟩
    · simp [upsertTypeInheritanceLink, hbase, hb, hlink1, hfind, hbid]
    · simp [upsertTypeInheritanceLink, hbase, hb, hlink2, hname]
    · simp [hfl]
  · intro t tid st b parent hbase hb hpar
    constructor
    · intro heq
      simp [upsertTypeInheritanceLink, hbase, hb, hpar, heq]
    · intro hne
      simp [upsertTypeInheritanceLink, hbase, hb, hpar, hne]

/-- Witness for C7 at concrete inputs: linking `MyModel` under
`mlmd.Model`, idempotence of the second call, and the single resulting
ParentType row. -/
theorem upsertTypeInheritanceLink_cases_witness :
    upsertTypeInheritanceLink ⟨none, "MyModel", none, [], some .model⟩ 2
        ⟨[⟨some 1, "mlmd.Model", none, [], none⟩,
          ⟨some 2, "MyModel", none, [], none⟩], [], 3⟩ =
      .ok ⟨[⟨some 1, "mlmd.Model", none, [], none⟩,
            ⟨some 2, "MyModel", none, [], none⟩], [(2, 1)], 3⟩ ∧
    upsertTypeInheritanceLink ⟨none, "MyModel", none, [], some .model⟩ 2
        ⟨[⟨some 1, "mlmd.Model", none, [], none⟩,
          ⟨some 2, "MyModel", none, [], none⟩], [(2, 1)], 3⟩ =
      .ok ⟨[⟨some 1, "mlmd.Model", none, [], none⟩,
            ⟨some 2, "MyModel", none, [], none⟩], [(2, 1)], 3⟩ := by
  have h := upsertTypeInheritanceLink_cases.2.2.1
    ⟨none, "MyModel", none, [], some .model⟩ 2
    ⟨[⟨some 1, "mlmd.Model", none, [], none⟩,
      ⟨some 2, "MyModel", none, [], none⟩], [], 3⟩
    .model ⟨some 1, "mlmd.Model", none, [], none⟩ 1
    rfl (by decide) rfl rfl rfl rfl
  exact ⟨h.1, h.2.1⟩

/-- With no ParentType rows, base-type population is the identity. -/
theorem setBaseTypes_of_no_parents (ts : List MType) (st : TypeStore)
    (h : st.parentLinks = []) : setBaseTypes ts st = .ok ts := by
  induction ts with
  | nil => rfl
  | cons t rest ih =>
    have hone : setBaseTypeOne t st = .ok t := by
      simp [setBaseTypeOne, findParentTypeByTypeId, h]
    simp [setBaseTypes, hone, ih, Except.map, Except.bind]

/-- C8 (amended): `GetArtifactTypes` and `GetExecutionTypes` return every
stored type of their variant except those whose name is on the seeded
simple-type list; `GetContextTypes` applies no such filter and returns all
stored context types. -/
theorem getTypes_simple_filter :
    (∀ st : TypeStore, st.parentLinks = [] →
        getArtifactTypes st =
          .ok (st.types.filter (fun t => !(kSimpleTypeNames.contains t.name))) ∧
        getExecutionTypes st =
          .ok (st.types.filter (fun t => !(kSimpleTypeNames.contains t.name)))) ∧
    (∀ st : TypeStore, getContextTypes st = .ok st.types) := by
  constructor
  · intro st h
    exact ⟨setBaseTypes_of_no_parents _ st h, setBaseTypes_of_no_parents _ st h⟩
  · intro st
    rfl

/-- Witness for C8 at a concrete store: a user type is returned, a
simple-type name is filtered from the artifact listing. -/
theorem getTypes_simple_filter_witness :
    getArtifactTypes ⟨[⟨some 1, "mlmd.Dataset", none, [], none⟩,
        ⟨some 2, "Img", none, [], none⟩], [], 3⟩ =
      .ok [⟨some 2, "Img", none, [], none⟩] := by
  have h := (getTypes_simple_filter.1
    ⟨[⟨some 1, "mlmd.Dataset", none, [], none⟩,
      ⟨some 2, "Img", none, [], none⟩], [], 3⟩ rfl).1
  rw [h]
  rfl

/-- Counterexample for C8 as stated: a stored context type carrying a name
on the excluded list is returned by `GetContextTypes` rather than being
filtered out of the response. -/
theorem getContextTypes_no_filter_counterexample :
    getContextTypes ⟨[⟨some 1, "mlmd.Dataset", none, [], none⟩], [], 2⟩ =
      .ok [⟨some 1, "mlmd.Dataset", none, [], none⟩] ∧
    kSimpleTypeNames.contains "mlmd.Dataset" = true := ⟨rfl, rfl⟩

/-- C9 (amended): re-inserting an existing Attribution or Association is a
silent success leaving the store untouched, and the shared status handling
propagates any non-ALREADY_EXISTS error; `PutParentContexts`, by contrast,
propagates the create operation's status unconditionally. -/
theorem linkInsert_silent_success :
    (∀ (c e : Int) (st : Store), st.associations.contains (c, e) = true →
        insertAssociationIfNotExist c e st = .ok st) ∧
    (∀ (c a : Int) (st : Store), st.attributions.contains (c, a) = true →
        insertAttributionIfNotExist c a st = .ok st) ∧
    (∀ (e : ErrCode) (st : Store), e ≠ ErrCode.alreadyExists →
        swallowAlreadyExists (.error e) st = .error e) := by
  refine ⟨?_, ?_, ?_⟩
  · intro c e st h
    have h' : (c, e) ∈ st.associations := by simpa using h
    simp [insertAssociationIfNotExist, createAssociation, h', swallowAlreadyExists]
  · intro c a st h
    have h' : (c, a) ∈ st.attributions := by simpa using h
    simp [insertAttributionIfNotExist, createAttribution, h', swallowAlreadyExists]
  · intro e st h
    simp [swallowAlreadyExists, h]

/-- Witness for C9 at concrete inputs: duplicate association and
attribution inserts succeed silently; an INTERNAL status is propagated. -/
theorem linkInsert_silent_success_witness :
    insertAssociationIfNotExist 1 2
        ⟨[], [], [], [], [(1, 2)], [], [], 1, 1, 1⟩ =
      .ok ⟨[], [], [], [], [(1, 2)], [], [], 1, 1, 1⟩ ∧
    insertAttributionIfNotExist 1 3
        ⟨[], [], [], [], [], [(1, 3)], [], 1, 1, 1⟩ =
      .ok ⟨[], [], [], [], [], [(1, 3)], [], 1, 1, 1⟩ ∧
    swallowAlreadyExists (.error .internal)
        ⟨[], [], [], [], [], [], [], 1, 1, 1⟩ =
      .error .internal := by
  refine ⟨?_, ?_, ?_⟩
  · exact linkInsert_silent_success.1 1 2
      ⟨[], [], [], [], [(1, 2)], [], [], 1, 1, 1⟩ rfl
  · exact linkInsert_silent_success.2.1 1 3
      ⟨[], [], [], [], [], [(1, 3)], [], 1, 1, 1⟩ rfl
  · exact linkInsert_silent_success.2.2 ErrCode.internal
      ⟨[], [], [], [], [], [], [], 1, 1, 1⟩ (by decide)

/-- Counterexample for C9 as stated: `PutParentContexts` on an
already-present (parent, child) pair is not a silent success; the
ALREADY_EXISTS status of the create operation is propagated. -/
theorem putParentContexts_not_silent_counterexample :
    putParentContexts [⟨some 1, some 2⟩]
        ⟨[], [], [], [], [], [], [(1, 2)], 1, 1, 1⟩ =
      .error .alreadyExists := rfl

/-- The model Access Object's find-by-id fails only with NOT_FOUND. -/
theorem findTypeById_error {typeId : Int} {st : TypeStore} {e : ErrCode}
    (h : findTypeById typeId st = .error e) : e = ErrCode.notFound := by
  unfold findTypeById at h
  cases hf : st.types.find? (fun t => t.id == some typeId) with
  | none => rw [hf] at h; injection h with h'; exact h'.symm
  | some t => rw [hf] at h; cases h

/-- The by-id collect loop keeps exactly the ids that resolve, in request
order, silently dropping the NOT_FOUND ones. -/
theorem collectTypesByIds_eq (ids : List Int) (st : TypeStore) :
    collectTypesByIds ids st =
      .ok (ids.filterMap (fun i => (findTypeById i st).toOption)) := by
  induction ids with
  | nil => rfl
  | cons i rest ih =>
    cases hf : findTypeById i st with
    | ok t => simp [collectTypesByIds, hf, ih, Except.map, Except.toOption]
    | error e =>
      have he := findTypeById_error hf
      subst he
      simp [collectTypesByIds, hf, ih, Except.toOption]

/-- C5 (amended): the by-name type reads `GetArtifactType`,
`GetExecutionType` and `GetContextType` propagate NOT_FOUND for a missing
(name, version) rather than returning an empty response; the by-id reads
silently skip ids that are not found and return the rest; `GetLineageGraph`
with an empty seed set returns NOT_FOUND. -/
theorem typeReads_missing_behavior :
    (∀ (nm : String) (v : Option String) (st : TypeStore),
        findTypeByNameAndVersion nm (getRequestTypeVersion v) st =
          .error .notFound →
        getArtifactType nm v st = .error .notFound ∧
        getExecutionType nm v st = .error .notFound ∧
        getContextType nm v st = .error .notFound) ∧
    (∀ (ids : List Int) (st : TypeStore), st.parentLinks = [] →
        getArtifactTypesByID ids st =
          .ok (ids.filterMap (fun i => (findTypeById i st).toOption))) ∧
    (∀ (ids : List Int) (st : TypeStore),
        getContextTypesByID ids st =
          .ok (ids.filterMap (fun i => (findTypeById i st).toOption))) ∧
    (∀ req : LineageGraphRequest, req.has_artifacts_options = true →
        req.max_num_hops = none →
        getLineageGraph req (.ok []) = .error .notFound) := by
  refine ⟨?_, ?_, ?_, ?_⟩
  · intro nm v st h
    refine ⟨?_, ?_, ?_⟩ <;> simp [getArtifactType, getExecutionType, getContextType, h]
  · intro ids st h
    rw [getArtifactTypesByID, collectTypesByIds_eq]
    simp [Except.bind, setBaseTypes_of_no_parents _ st h]
  · intro ids st
    exact collectTypesByIds_eq ids st
  · intro req hopt hhops
    simp [getLineageGraph, hopt, hhops, Except.bind]

/-- Witness for C5 at concrete inputs: a by-id read skipping a missing id,
and a seedless lineage query. -/
theorem typeReads_missing_behavior_witness :
    getArtifactTypesByID [1, 99] ⟨[⟨some 1, "Img", none, [], none⟩], [], 2⟩ =
      .ok [⟨some 1, "Img", none, [], none⟩] ∧
    getLineageGraph ⟨true, none, 0, "", ""⟩ (.ok []) = .error .notFound := by
  constructor
  · have h := typeReads_missing_behavior.2.1 [1, 99]
      ⟨[⟨some 1, "Img", none, [], none⟩], [], 2⟩ rfl
    rw [h]
    rfl
  · exact typeReads_missing_behavior.2.2.2 ⟨true, none, 0, "", ""⟩ rfl rfl

/-- Counterexample for C5 as stated: `GetArtifactType` for a (name,
version) not present in the store returns a NOT_FOUND error, not OK with an
empty response — the find status is propagated unwrapped
(metadata_store.cc line 528). -/
theorem getArtifactType_missing_counterexample :
    getArtifactType "Missing" none ⟨[], [], 1⟩ = .error .notFound := rfl

/-- Inversion of a successful `GetLineageGraph` call: the options were
present, the seed query returned a non-empty list, the hop bound is the
clamp of the requested value, and the seed list is the (possibly
truncated) query result. -/
theorem getLineageGraph_ok_inv {req : LineageGraphRequest}
    {L : Except ErrCode (List Artifact)} {call : LineageGraphCall}
    (hok : getLineageGraph req L = .ok call) :
    ∃ arts, L = .ok arts ∧ arts.isEmpty = false ∧
      req.has_artifacts_options = true ∧
      ((∃ h, req.max_num_hops = some h ∧ ¬ h < 0 ∧
          call.max_num_hops = min 20 h) ∨
        (req.max_num_hops = none ∧ call.max_num_hops = 20)) ∧
      call.seeds =
        (if req.max_node_size > 0 ∧ (arts.length : Int) > req.max_node_size
         then arts.take req.max_node_size.toNat else arts) := by
  by_cases hopt : req.has_artifacts_options
  · rw [getLineageGraph, if_neg (by simpa using hopt)] at hok
    cases hh : req.max_num_hops with
    | some h =>
      simp only [hh] at hok
      by_cases hlt : h < 0
      · rw [if_pos hlt] at hok
        simp [Except.bind] at hok
      · rw [if_neg hlt] at hok
        cases L with
        | error e => simp [Except.bind] at hok
        | ok arts =>
          by_cases hemp : arts.isEmpty
          · simp [Except.bind, hemp] at hok
          · simp only [Except.bind, Bool.not_eq_true] at hemp
            simp only [Except.bind, hemp, Bool.false_eq_true, if_false] at hok
            injection hok with hok
            subst hok
            exact ⟨arts, rfl, hemp, by simpa using hopt,
              Or.inl ⟨h, rfl, hlt, by simp⟩, by simp⟩
    | none =>
      simp only [hh] at hok
      cases L with
      | error e => simp [Except.bind] at hok
      | ok arts =>
        by_cases hemp : arts.isEmpty
        · simp [Except.bind, hemp] at hok
        · simp only [Except.bind, Bool.not_eq_true] at hemp
          simp only [Except.bind, hemp, Bool.false_eq_true, if_false] at hok
          injection hok with hok
          subst hok
          exact ⟨arts, rfl, hemp, by simpa using hopt,
            Or.inr ⟨rfl, by simp⟩, by simp⟩
  · rw [getLineageGraph, if_pos (by simpa using hopt)] at hok
    cases hok

/-- C6: `GetLineageGraph` clamps the effective hop bound to [0, 20]: a
negative `max_num_hops` is INVALID_ARGUMENT before any traversal, a value
above 20 is replaced with 20, an omitted value defaults to 20; a request
without `artifacts_options` is INVALID_ARGUMENT; an empty seed query result
is NOT_FOUND; and with `0 < max_node_size` a longer seed list is truncated
to its first `max_node_size` entries before delegation. -/
theorem getLineageGraph_bounds :
    (∀ (req : LineageGraphRequest) (L : Except ErrCode (List Artifact)) (h : Int),
        req.max_num_hops = some h → h < 0 →
        getLineageGraph req L = .error .invalidArgument) ∧
    (∀ (req : LineageGraphRequest) (L : Except ErrCode (List Artifact))
        (call : LineageGraphCall) (h : Int),
        req.max_num_hops = some h → 20 < h →
        getLineageGraph req L = .ok call → call.max_num_hops = 20) ∧
    (∀ (req : LineageGraphRequest) (L : Except ErrCode (List Artifact))
        (call : LineageGraphCall),
        req.max_num_hops = none →
        getLineageGraph req L = .ok call → call.max_num_hops = 20) ∧
    (∀ (req : LineageGraphRequest) (L : Except ErrCode (List Artifact)),
        req.has_artifacts_options = false →
        getLineageGraph req L = .error .invalidArgument) ∧
    (∀ req : LineageGraphRequest, req.has_artifacts_options = true →
        (∀ h : Int, req.max_num_hops = some h → 0 ≤ h) →
        getLineageGraph req (.ok []) = .error .notFound) ∧
    (∀ (req : LineageGraphRequest) (arts : List Artifact)
        (call : LineageGraphCall),
        getLineageGraph req (.ok arts) = .ok call →
        0 < req.max_node_size → req.max_node_size < (arts.length : Int) →
        call.seeds = arts.take req.max_node_size.toNat) := by
  refine ⟨?_, ?_, ?_, ?_, ?_, ?_⟩
  · intro req L h hsome hlt
    by_cases hopt : req.has_artifacts_options
    · rw [getLineageGraph, if_neg (by simpa using hopt)]
      simp only [hsome]
      rw [if_pos hlt]
      simp [Except.bind]
    · simp [getLineageGraph, hopt]
  · intro req L call h hsome hgt hok
    rcases getLineageGraph_ok_inv hok with ⟨arts, _, _, _, hhops, _⟩
    rcases hhops with ⟨h2, hh2, _, hval⟩ | ⟨hh2, _⟩
    · rw [hsome] at hh2
      injection hh2 with hh2
      subst hh2
      rw [hval]
      omega
    · rw [hsome] at hh2
      cases hh2
  · intro req L call hnone hok
    rcases getLineageGraph_ok_inv hok with ⟨arts, _, _, _, hhops, _⟩
    rcases hhops with ⟨h2, hh2, _, _⟩ | ⟨_, hval⟩
    · rw [hnone] at hh2
      cases hh2
    · exact hval
  · intro req L hopt
    simp [getLineageGraph, hopt]
  · intro req hopt hnn
    rw [getLineageGraph, if_neg (by simp [hopt])]
    cases hh : req.max_num_hops with
    | none => simp [Except.bind]
    | some h =>
      simp only [hh]
      rw [if_neg (by have := hnn h hh; omega)]
      simp [Except.bind]
  · intro req arts call hok hpos hlen
    rcases getLineageGraph_ok_inv hok with ⟨arts2, harts, _, _, _, hseeds⟩
    injection harts with harts
    subst harts
    rw [hseeds, if_pos ⟨hpos, hlen⟩]

/-- Witness for C6 at concrete inputs: a negative hop count is rejected, a
hop count of 100 is clamped to 20, and a two-artifact seed list is
truncated to `max_node_size = 1`. -/
theorem getLineageGraph_bounds_witness :
    getLineageGraph ⟨true, some (-3), 0, "", ""⟩
        (.ok [⟨some 1, none, none⟩]) = .error .invalidArgument ∧
    (getLineageGraph ⟨true, some 100, 0, "", ""⟩
        (.ok [⟨some 1, none, none⟩])).map (fun c => c.max_num_hops) = .ok 20 ∧
    (getLineageGraph ⟨true, none, 1, "", ""⟩
        (.ok [⟨some 1, none, none⟩, ⟨some 2, none, none⟩])).map
      (fun c => c.seeds) = .ok [⟨some 1, none, none⟩] := by
  refine ⟨?_, ?_, ?_⟩
  · exact getLineageGraph_bounds.1 ⟨true, some (-3), 0, "", ""⟩
      (.ok [⟨some 1, none, none⟩]) (-3) rfl (by decide)
  · have h20 := getLineageGraph_bounds.2.1 ⟨true, some 100, 0, "", ""⟩
      (.ok [⟨some 1, none, none⟩])
      ⟨[⟨some 1, none, none⟩], 20, none, none, none⟩ 100 rfl (by decide) (by rfl)
    rfl
  · have htr := getLineageGraph_bounds.2.2.2.2.2 ⟨true, none, 1, "", ""⟩
      [⟨some 1, none, none⟩, ⟨some 2, none, none⟩]
      ⟨[⟨some 1, none, none⟩], 20, some 1, none, none⟩ (by rfl) (by decide)
      (by decide)
    rfl

/-- Property lookup succeeds exactly on the keys of the map. -/
theorem findProp_isSome_iff (l : List (String × PropertyType)) (k : String) :
    (findProp l k).isSome = true ↔ k ∈ l.map Prod.fst := by
  induction l with
  | nil => simp [findProp]
  | cons p rest ih =>
    obtain ⟨a, b⟩ := p
    by_cases hak : a = k
    · simp [findProp, hak]
    · simp [findProp, hak, ih, Ne.symm hak]

/-- Property lookup fails exactly off the keys of the map. -/
theorem findProp_eq_none_iff (l : List (String × PropertyType)) (k : String) :
    findProp l k = none ↔ k ∉ l.map Prod.fst := by
  rw [← Option.not_isSome_iff_eq_none]
  exact not_congr (findProp_isSome_iff l k)

/-- Lookup success as a decidable key-membership test. -/
theorem findProp_isSome_eq_decide (l : List (String × PropertyType)) (k : String) :
    (findProp l k).isSome = decide (k ∈ l.map Prod.fst) := by
  by_cases h : k ∈ l.map Prod.fst
  · simp [h, findProp_isSome_iff]
  · simp [h, (findProp_eq_none_iff l k).2 h]

/-- A binding found in the left map survives an append on the right. -/
theorem findProp_append_of_some (xs ys : List (String × PropertyType))
    (k : String) (v : PropertyType) (h : findProp xs k = some v) :
    findProp (xs ++ ys) k = some v := by
  induction xs with
  | nil => cases h
  | cons p rest ih =>
    obtain ⟨a, b⟩ := p
    by_cases hak : a = k
    · simpa [findProp, hak] using h
    · rw [findProp] at h
      rw [if_neg hak] at h
      simpa [findProp, hak] using ih h

/-- Splitting a filter over a predicate and its negation recovers the
length. -/
theorem length_filter_add_length_not {α : Type} (l : List α) (q : α → Bool) :
    (l.filter q).length + (l.filter (fun a => !(q a))).length = l.length := by
  induction l with
  | nil => rfl
  | cons a rest ih => cases hq : q a <;> simp [List.filter_cons, hq] <;> omega

/-- Filtering the keys equals filtering the entries on their keys, in
length. -/
theorem length_filter_map_fst (l : List (String × PropertyType))
    (q : String → Bool) :
    ((l.map Prod.fst).filter q).length = (l.filter (fun p => q p.1)).length := by
  induction l with
  | nil => rfl
  | cons p rest ih => cases hq : q p.1 <;> simp [List.filter_cons, hq, ih]

/-- For duplicate-free key lists, the two ways of counting the shared keys
agree. -/
theorem filter_mem_length_comm (xs ys : List String) (hx : xs.Nodup)
    (hy : ys.Nodup) :
    (xs.filter (fun k => decide (k ∈ ys))).length =
      (ys.filter (fun k => decide (k ∈ xs))).length := by
  have key : ∀ (as bs : List String), as.Nodup →
      (as.filter (fun k => decide (k ∈ bs))).length =
        (as.toFinset ∩ bs.toFinset).card := by
    intro as bs ha
    have hnd : (as.filter (fun k => decide (k ∈ bs))).Nodup := ha.filter _
    rw [← List.toFinset_card_of_nodup hnd]
    congr 1
    ext k
    simp [List.mem_toFinset, List.mem_filter, Finset.mem_inter]
  rw [key xs ys hx, key ys xs hy, Finset.inter_comm]

/-- The stored-properties loop succeeds and returns the omitted-field count
when no shared property conflicts and either omission is allowed or nothing
is omitted. -/
theorem checkStoredProperties_ok (tp : List (String × PropertyType)) (co : Bool) :
    ∀ (sp : List (String × PropertyType)) (acc : Nat),
      (∀ p ∈ sp, findProp tp p.1 = none ∨ findProp tp p.1 = some p.2) →
      (co = true ∨ ∀ p ∈ sp, (findProp tp p.1).isSome = true) →
      (co = true ∨ acc = 0) →
      checkStoredProperties sp tp co acc =
        .ok (acc + (sp.filter (fun p => (findProp tp p.1).isNone)).length) := by
  intro sp
  induction sp with
  | nil => intro acc _ _ _; simp [checkStoredProperties]
  | cons p rest ih =>
    intro acc hcons homit hacc
    obtain ⟨k, v⟩ := p
    cases hfp : findProp tp k with
    | none =>
      have hco : co = true := by
        rcases homit with h | h
        · exact h
        · have := h (k, v) (List.mem_cons_self _ _)
          rw [hfp] at this
          cases this
      subst hco
      have hrec := ih (acc + 1)
        (fun q hq => hcons q (List.mem_cons_of_mem _ hq))
        (Or.inl rfl) (Or.inl rfl)
      have hstep : checkStoredProperties ((k, v) :: rest) tp true acc =
          checkStoredProperties rest tp true (acc + 1) := by
        rw [checkStoredProperties]
        simp [hfp]
      rw [hstep, hrec]
      congr 1
      rw [List.filter_cons, if_pos (by simp [hfp]), List.length_cons]
      omega
    | some w =>
      have hwv : w = v := by
        rcases hcons (k, v) (List.mem_cons_self _ _) with h | h
        · rw [hfp] at h; cases h
        · rw [hfp] at h; exact Option.some.inj h
      subst hwv
      have hnotrig : ¬ (acc > 0 ∧ ¬ (co = true)) := by
        rcases hacc with h | h
        · simp [h]
        · simp [h]
      have hrec := ih acc
        (fun q hq => hcons q (List.mem_cons_of_mem _ hq))
        (by rcases homit with h | h
            · exact Or.inl h
            · exact Or.inr (fun q hq => h q (List.mem_cons_of_mem _ hq)))
        hacc
      have hstep : checkStoredProperties ((k, w) :: rest) tp co acc =
          checkStoredProperties rest tp co acc := by
        rw [checkStoredProperties]
        simp only [hfp]
        rw [if_neg (by simp), if_neg hnotrig]
      rw [hstep, hrec]
      congr 1
      rw [List.filter_cons, if_neg (by simp [hfp])]

/-- `isNone` is the boolean negation of `isSome`. -/
theorem isNone_eq_bnot_isSome (o : Option PropertyType) : o.isNone = !o.isSome := by
  cases o <;> rfl

/-- C1 (amended): for stored S and incoming T with equal names, no
property-kind conflict on shared names, T introducing at least one new
property name, `can_add_fields` true, and additionally either
`can_omit_fields` true or no property of S absent from T, the consistency
check succeeds and the merged output is S extended with exactly the
properties of T absent from S; moreover every successful check preserves
all of S's properties with their kinds, so the stored schema only grows. -/
theorem checkFieldsConsistent_merges_new_properties :
    (∀ (S T : MType) (co : Bool),
        S.name = T.name →
        (S.properties.map Prod.fst).Nodup →
        (T.properties.map Prod.fst).Nodup →
        (∀ p ∈ S.properties,
          findProp T.properties p.1 = none ∨
            findProp T.properties p.1 = some p.2) →
        (co = true ∨ ∀ p ∈ S.properties,
          (findProp T.properties p.1).isSome = true) →
        (∃ p ∈ T.properties, findProp S.properties p.1 = none) →
        checkFieldsConsistent S T true co =
          .ok { S with properties := S.properties ++
            T.properties.filter (fun p => (findProp S.properties p.1).isNone) }) ∧
    (∀ (S T : MType) (ca co : Bool) (U : MType),
        checkFieldsConsistent S T ca co = .ok U →
        ∀ k v, findProp S.properties k = some v → findProp U.properties k = some v) := by
  constructor
  · intro S T co hname hndS hndT hcons homit hnew
    have hnotname : ¬ (S.name ≠ T.name) := by simp [hname]
    have hloop := checkStoredProperties_ok T.properties co S.properties 0 hcons
      homit (Or.inr rfl)
    have hnone_eq : (fun p : String × PropertyType =>
        (findProp T.properties p.1).isNone) =
        (fun p => !((findProp T.properties p.1).isSome)) :=
      funext fun p => isNone_eq_bnot_isSome _
    have hnoneS_eq : (fun p : String × PropertyType =>
        (findProp S.properties p.1).isNone) =
        (fun p => !((findProp S.properties p.1).isSome)) :=
      funext fun p => isNone_eq_bnot_isSome _
    have f1 : (S.properties.filter
          (fun p => (findProp T.properties p.1).isSome)).length +
        (S.properties.filter
          (fun p => (findProp T.properties p.1).isNone)).length =
        S.properties.length := by
      rw [hnone_eq]
      exact length_filter_add_length_not S.properties _
    have f2 : (S.properties.filter
          (fun p => (findProp T.properties p.1).isSome)).length =
        (T.properties.filter
          (fun p => (findProp S.properties p.1).isSome)).length := by
      have e1 : (fun k => (findProp T.properties k).isSome) =
          (fun k => decide (k ∈ T.properties.map Prod.fst)) :=
        funext (findProp_isSome_eq_decide T.properties)
      have e2 : (fun k => (findProp S.properties k).isSome) =
          (fun k => decide (k ∈ S.properties.map Prod.fst)) :=
        funext (findProp_isSome_eq_decide S.properties)
      rw [← length_filter_map_fst S.properties
            (fun k => (findProp T.properties k).isSome),
          ← length_filter_map_fst T.properties
            (fun k => (findProp S.properties k).isSome),
          e1, e2]
      exact filter_mem_length_comm _ _ hndS hndT
    have f3 : (T.properties.filter
          (fun p => (findProp S.properties p.1).isSome)).length +
        (T.properties.filter
          (fun p => (findProp S.properties p.1).isNone)).length =
        T.properties.length := by
      rw [hnoneS_eq]
      exact length_filter_add_length_not T.properties _
    have f4 : 0 < (T.properties.filter
        (fun p => (findProp S.properties p.1).isNone)).length := by
      obtain ⟨p, hpT, hpnone⟩ := hnew
      exact List.length_pos_of_mem
        (List.mem_filter.mpr ⟨hpT, by simp [hpnone]⟩)
    have hnoteq : ¬ (S.properties.length -
        (0 + (S.properties.filter
          (fun p => (findProp T.properties p.1).isNone)).length) =
        T.properties.length) := by
      omega
    rw [checkFieldsConsistent, if_neg hnotname]
    simp only [hloop]
    rw [if_neg hnoteq, if_neg (by simp)]
  · intro S T ca co U h k v hfind
    rw [checkFieldsConsistent] at h
    by_cases hname : S.name ≠ T.name
    · rw [if_pos hname] at h
      cases h
    · rw [if_neg hname] at h
      cases hloop : checkStoredProperties S.properties T.properties co 0 with
      | error e =>
        simp only [hloop] at h
        cases h
      | ok omitted =>
        simp only [hloop] at h
        by_cases hlen : S.properties.length - omitted = T.properties.length
        · rw [if_pos hlen] at h
          have hU := Except.ok.inj h
          subst hU
          exact hfind
        · rw [if_neg hlen] at h
          by_cases hca : ca
          · rw [if_neg (by simp [hca])] at h
            have hU := Except.ok.inj h
            subst hU
            exact findProp_append_of_some _ _ _ _ hfind
          · rw [if_pos (by simpa using hca)] at h
            cases h

/-- Witness for C1 at concrete inputs: widening `{a, b}` with a new
property `c` under `can_omit_fields = true`. -/
theorem checkFieldsConsistent_merges_new_properties_witness :
    checkFieldsConsistent
        ⟨some 1, "Img", none, [("a", .intType), ("b", .intType)], none⟩
        ⟨none, "Img", none, [("a", .intType), ("c", .intType)], none⟩
        true true =
      .ok ⟨some 1, "Img", none,
        [("a", .intType), ("b", .intType), ("c", .intType)], none⟩ := by
  have h := checkFieldsConsistent_merges_new_properties.1
    ⟨some 1, "Img", none, [("a", .intType), ("b", .intType)], none⟩
    ⟨none, "Img", none, [("a", .intType), ("c", .intType)], none⟩
    true rfl (by decide) (by decide) (by decide) (Or.inl rfl) (by decide)
  rw [h]
  rfl

/-- Counterexample for C1 as stated: equal names, no property-kind
conflict, a new property name `c`, and `can_add_fields = true`, yet the
check fails, because property `b` of the stored type is omitted from the
incoming type while `can_omit_fields` is false — a condition the claim
does not mention. -/
theorem checkFieldsConsistent_omit_counterexample :
    checkFieldsConsistent
        ⟨some 1, "Img", none, [("a", .intType), ("b", .intType)], none⟩
        ⟨none, "Img", none, [("a", .intType), ("c", .intType)], none⟩
        true false = .error .failedPrecondition := rfl

/-- An artifact id is present in the store's artifact table. -/
def hasArtifactWithId (aid : Int) (st : Store) : Prop :=
  ∃ art, art ∈ st.artifacts ∧ art.id = some aid

/-- Presence of an artifact id depends only on the artifact table. -/
theorem hasArtifactWithId_congr {st1 st2 : Store} (h : st1.artifacts = st2.artifacts)
    {aid : Int} : hasArtifactWithId aid st1 → hasArtifactWithId aid st2 := by
  rintro ⟨art, hmem, hid⟩
  exact ⟨art, h ▸ hmem, hid⟩

/-- A pair with neither artifact nor event is skipped, leaving the in/out
artifact id and the store untouched. -/
theorem upsertArtifactAndEvent_none_none (aid0 : Int) (st : Store) :
    upsertArtifactAndEvent ⟨none, none⟩ aid0 st = .ok (aid0, st) := by
  simp [upsertArtifactAndEvent]

/-- An upsert of an artifact that carries an id returns that id. -/
theorem upsertArtifact_some_id {a : Artifact} {j : Int} {st st1 : Store} {x : Int}
    (hj : a.id = some j) (h : upsertArtifact a st = .ok (x, st1)) : x = j := by
  rw [upsertArtifact, hj] at h
  cases hu : updateArtifact a st with
  | error e => rw [hu] at h; cases h
  | ok st2 =>
    rw [hu] at h
    have := Except.ok.inj h
    exact (congrArg Prod.fst this).symm

/-- A successful artifact upsert leaves an artifact with the returned id in
the store. -/
theorem upsertArtifact_result_present {a : Artifact} {st st1 : Store} {x : Int}
    (h : upsertArtifact a st = .ok (x, st1)) : hasArtifactWithId x st1 := by
  cases ha : a.id with
  | some i =>
    rw [upsertArtifact, ha] at h
    cases hu : updateArtifact a st with
    | error e => rw [hu] at h; cases h
    | ok st2 =>
      rw [hu] at h
      have hinj := Except.ok.inj h
      have hx : x = i := (congrArg Prod.fst hinj).symm
      have hst : st1 = st2 := (congrArg Prod.snd hinj).symm
      subst hx
      subst hst
      rw [updateArtifact] at hu
      by_cases hany : st.artifacts.any (fun s => s.id == a.id)
      · rw [if_pos hany] at hu
        have hst2 := Except.ok.inj hu
        subst hst2
        obtain ⟨art, hmem, hbeq⟩ := List.any_eq_true.mp hany
        exact ⟨a, List.mem_map.mpr ⟨art, hmem, by simp [hbeq]⟩, ha⟩
      · rw [if_neg hany] at hu
        cases hu
  | none =>
    rw [upsertArtifact, ha] at h
    have hinj := Except.ok.inj h
    have hx : x = st.nextArtifactId := by
      have := congrArg Prod.fst hinj
      simpa [createArtifact] using this.symm
    have hst : st1 = (createArtifact a st).2 := (congrArg Prod.snd hinj).symm
    subst hx
    subst hst
    exact ⟨{ a with id := some st.nextArtifactId },
      by simp [createArtifact], rfl⟩

/-- A successful artifact upsert preserves every artifact id already
present. -/
theorem upsertArtifact_preserves {a : Artifact} {st st1 : Store} {x : Int}
    (h : upsertArtifact a st = .ok (x, st1)) (aid : Int) :
    hasArtifactWithId aid st → hasArtifactWithId aid st1 := by
  rintro ⟨art, hmem, hid⟩
  cases ha : a.id with
  | some i =>
    rw [upsertArtifact, ha] at h
    cases hu : updateArtifact a st with
    | error e => rw [hu] at h; cases h
    | ok st2 =>
      rw [hu] at h
      have hst : st1 = st2 := (congrArg Prod.snd (Except.ok.inj h)).symm
      subst hst
      rw [updateArtifact] at hu
      by_cases hany : st.artifacts.any (fun s => s.id == a.id)
      · rw [if_pos hany] at hu
        have hst2 := Except.ok.inj hu
        subst hst2
        by_cases hb : (art.id == a.id) = true
        · refine ⟨a, List.mem_map.mpr ⟨art, hmem, by simp [hb]⟩, ?_⟩
          have heq : art.id = a.id := by simpa using hb
          exact heq ▸ hid
        · exact ⟨art, List.mem_map.mpr ⟨art, hmem, by simp [hb]⟩, hid⟩
      · rw [if_neg hany] at hu
        cases hu
  | none =>
    rw [upsertArtifact, ha] at h
    have hst : st1 = (createArtifact a st).2 := (congrArg Prod.snd (Except.ok.inj h)).symm
    subst hst
    exact ⟨art, by simp [createArtifact]; exact Or.inl hmem, hid⟩

/-- Computation law: a pair with only an event whose `artifact_id` is unset
is rejected. -/
theorem upsertArtifactAndEvent_none_some_err {e : Event} (aid0 : Int) (st : Store)
    (he : e.artifact_id = none) :
    upsertArtifactAndEvent ⟨none, some e⟩ aid0 st = .error .invalidArgument := by
  simp [upsertArtifactAndEvent, he]

/-- Computation law: a pair with only an event that carries an
`artifact_id` creates the event and reports that artifact id. -/
theorem upsertArtifactAndEvent_none_some_ok {e : Event} (aid0 : Int) (st : Store)
    (he : e.artifact_id ≠ none) :
    upsertArtifactAndEvent ⟨none, some e⟩ aid0 st =
      .ok (e.artifact_id.getD 0, createEvent e st) := by
  have hs : e.artifact_id.isSome = true := Option.ne_none_iff_isSome.mp he
  simp [upsertArtifactAndEvent, he, hs, Except.bind]

/-- Computation law: a pair with an artifact and no event reduces to the
artifact upsert. -/
theorem upsertArtifactAndEvent_some_none {a : Artifact} (aid0 : Int) (st : Store) :
    upsertArtifactAndEvent ⟨some a, none⟩ aid0 st = upsertArtifact a st := by
  rw [upsertArtifactAndEvent]
  rw [if_neg (by simp), if_neg (by simp), if_neg (by simp)]
  cases hu : upsertArtifact a st <;> simp [hu, Except.bind]

/-- Computation law: misaligned artifact and event ids are rejected. -/
theorem upsertArtifactAndEvent_some_some_mismatch {a : Artifact} {e : Event}
    (aid0 : Int) (st : Store)
    (h3 : e.artifact_id.isSome = true ∧ a.id ≠ e.artifact_id) :
    upsertArtifactAndEvent ⟨some a, some e⟩ aid0 st = .error .invalidArgument := by
  simp [upsertArtifactAndEvent, h3.1, h3.2]

/-- Computation law: an aligned artifact-and-event pair upserts the
artifact, stamps its id into the event, and creates the event. -/
theorem upsertArtifactAndEvent_some_some_ok {a : Artifact} {e : Event}
    (aid0 : Int) (st : Store)
    (h3 : ¬ (e.artifact_id.isSome = true ∧ a.id ≠ e.artifact_id)) :
    upsertArtifactAndEvent ⟨some a, some e⟩ aid0 st =
      (upsertArtifact a st).bind (fun r =>
        .ok (r.1, createEvent { e with artifact_id := some r.1 } r.2)) := by
  by_cases hs : e.artifact_id.isSome = true
  · have hne : a.id = e.artifact_id := by
      by_contra hne
      exact h3 ⟨hs, hne⟩
    simp [upsertArtifactAndEvent, hs, hne, Except.bind]
  · simp [upsertArtifactAndEvent, hs, Except.bind]

/-- Computation law: a pair without an event skips validation and goes
straight to the upsert. -/
theorem processPairs_cons_none (exec : Execution) (eid : Int)
    (pa : Option Artifact) (rest : List ArtifactAndEvent) (st : Store) :
    processPairs exec eid (⟨pa, none⟩ :: rest) st =
      (upsertArtifactAndEvent ⟨pa, none⟩ (-1) st).bind (fun r =>
        (processPairs exec eid rest r.2).map (fun q => (r.1 :: q.1, q.2))) := by
  simp [processPairs, Except.bind]

/-- Computation law: an event whose `execution_id` is set and disagrees
with the request execution aborts the loop with INVALID_ARGUMENT. -/
theorem processPairs_cons_some_err (exec : Execution) (eid : Int)
    (pa : Option Artifact) (ev : Event) (rest : List ArtifactAndEvent) (st : Store)
    (hcond : ev.execution_id.isSome = true ∧
      (exec.id = none ∨ exec.id ≠ ev.execution_id)) :
    processPairs exec eid (⟨pa, some ev⟩ :: rest) st = .error .invalidArgument := by
  simp only [processPairs]
  rw [if_pos (by exact ⟨hcond.1, hcond.2⟩)]
  rfl

/-- Computation law: a validated event gets the captured execution id
stamped in before the pair is upserted. -/
theorem processPairs_cons_some_ok (exec : Execution) (eid : Int)
    (pa : Option Artifact) (ev : Event) (rest : List ArtifactAndEvent) (st : Store)
    (hcond : ¬ (ev.execution_id.isSome = true ∧
      (exec.id = none ∨ exec.id ≠ ev.execution_id))) :
    processPairs exec eid (⟨pa, some ev⟩ :: rest) st =
      (upsertArtifactAndEvent ⟨pa, some { ev with execution_id := some eid }⟩
          (-1) st).bind (fun r =>
        (processPairs exec eid rest r.2).map (fun q => (r.1 :: q.1, q.2))) := by
  simp only [processPairs]
  rw [if_neg (by exact hcond)]
  rfl

/-- A successful pair upsert preserves every artifact id already present. -/
theorem upsertArtifactAndEvent_preserves {pair : ArtifactAndEvent} {aid0 : Int}
    {st : Store} {r : Int × Store}
    (h : upsertArtifactAndEvent pair aid0 st = .ok r) (aid : Int) :
    hasArtifactWithId aid st → hasArtifactWithId aid r.2 := by
  intro hpres
  obtain ⟨pa, pe⟩ := pair
  cases pa with
  | none =>
    cases pe with
    | none =>
      rw [upsertArtifactAndEvent_none_none] at h
      have := Except.ok.inj h
      subst this
      exact hpres
    | some e =>
      cases he : e.artifact_id with
      | none => rw [upsertArtifactAndEvent_none_some_err aid0 st he] at h; cases h
      | some j =>
        rw [upsertArtifactAndEvent_none_some_ok aid0 st (by simp [he])] at h
        have := Except.ok.inj h
        subst this
        exact hasArtifactWithId_congr rfl hpres
  | some a =>
    cases pe with
    | none =>
      rw [upsertArtifactAndEvent_some_none] at h
      have h' : upsertArtifact a st = .ok (r.1, r.2) := h
      exact upsertArtifact_preserves h' aid hpres
    | some e =>
      by_cases h3 : e.artifact_id.isSome = true ∧ a.id ≠ e.artifact_id
      · rw [upsertArtifactAndEvent_some_some_mismatch aid0 st h3] at h
        cases h
      · rw [upsertArtifactAndEvent_some_some_ok aid0 st h3] at h
        cases hu : upsertArtifact a st with
        | error e2 => rw [hu] at h; cases h
        | ok ra =>
          rw [hu] at h
          simp only [Except.bind] at h
          have := Except.ok.inj h
          subst this
          exact hasArtifactWithId_congr rfl (upsertArtifact_preserves hu aid hpres)

/-- The pair loop preserves every artifact id already present. -/
theorem processPairs_preserves {exec : Execution} {eid : Int} :
    ∀ {pairs : List ArtifactAndEvent} {st : Store} {ids : List Int} {st' : Store},
      processPairs exec eid pairs st = .ok (ids, st') → ∀ aid,
      hasArtifactWithId aid st → hasArtifactWithId aid st' := by
  intro pairs
  induction pairs with
  | nil =>
    intro st ids st' h aid hpres
    rw [processPairs] at h
    have hsnd : st = st' := congrArg Prod.snd (Except.ok.inj h)
    rw [← hsnd]
    exact hpres
  | cons pair rest ih =>
    intro st ids st' h aid hpres
    obtain ⟨pa, pe⟩ := pair
    have hred : ∃ pair2 : ArtifactAndEvent,
        processPairs exec eid (⟨pa, pe⟩ :: rest) st =
          (upsertArtifactAndEvent pair2 (-1) st).bind (fun r =>
            (processPairs exec eid rest r.2).map (fun q => (r.1 :: q.1, q.2))) := by
      cases pe with
      | none => exact ⟨⟨pa, none⟩, processPairs_cons_none exec eid pa rest st⟩
      | some ev =>
        by_cases hcond : ev.execution_id.isSome = true ∧
            (exec.id = none ∨ exec.id ≠ ev.execution_id)
        · rw [processPairs_cons_some_err exec eid pa ev rest st hcond] at h
          cases h
        · exact ⟨⟨pa, some { ev with execution_id := some eid }⟩,
            processPairs_cons_some_ok exec eid pa ev rest st hcond⟩
    obtain ⟨pair2, heq⟩ := hred
    rw [heq] at h
    cases hu : upsertArtifactAndEvent pair2 (-1) st with
    | error e2 => rw [hu] at h; cases h
    | ok r =>
      rw [hu] at h
      simp only [Except.bind] at h
      cases hrest : processPairs exec eid rest r.2 with
      | error e2 => rw [hrest] at h; cases h
      | ok q =>
        rw [hrest] at h
        simp only [Except.map] at h
        have hinj := Except.ok.inj h
        have hst : st' = q.2 := (congrArg Prod.snd hinj).symm
        subst hst
        exact ih hrest aid (upsertArtifactAndEvent_preserves hu aid hpres)

/-- Context upserts do not touch the artifact table. -/
theorem upsertContext_artifacts {c : Context} {st : Store} {r : Int × Store}
    (h : upsertContext c st = .ok r) : r.2.artifacts = st.artifacts := by
  cases hc : c.id with
  | some i =>
    rw [upsertContext, hc] at h
    cases hu : updateContext c st with
    | error e => rw [hu] at h; cases h
    | ok st2 =>
      rw [hu] at h
      have hst : r.2 = st2 := congrArg Prod.snd (Except.ok.inj h).symm
      rw [updateContext] at hu
      by_cases hany : st.contexts.any (fun s => s.id == c.id)
      · rw [if_pos hany] at hu
        rw [hst, ← Except.ok.inj hu]
      · rw [if_neg hany] at hu
        cases hu
  | none =>
    rw [upsertContext, hc, createContext] at h
    by_cases hdup : st.contexts.any (fun s =>
        s.type_id.getD 0 == c.type_id.getD 0 && s.name.getD "" == c.name.getD "")
    · rw [if_pos hdup] at h
      cases h
    · rw [if_neg hdup] at h
      rw [(Except.ok.inj h).symm]

/-- The context-id resolution step does not touch the artifact table,
whatever the lookup result, provided the upsert result it consumes also
leaves it unchanged. -/
theorem resolveContextId_artifacts {reuse : Bool} {ctx : Context}
    {lookupResult : Except ErrCode Context}
    {upsertResult : Except ErrCode (Int × Store)} {st : Store} {r : Int × Store}
    (hup : ∀ ru, upsertResult = .ok ru → ru.2.artifacts = st.artifacts)
    (h : resolveContextId reuse ctx lookupResult upsertResult st = .ok r) :
    r.2.artifacts = st.artifacts := by
  cases hu : upsertResult with
  | error e =>
    rw [resolveContextId.eq_def] at h
    simp only [hu] at h
    by_cases hreuse : reuse = true ∧ ctx.id = none
    · rw [if_pos hreuse] at h
      cases hl : lookupResult with
      | error e2 =>
        simp only [hl] at h
        by_cases hnf : e2 = ErrCode.notFound
        · rw [if_pos hnf] at h
          by_cases hc : reuse = true ∧ e = ErrCode.alreadyExists
          · rw [if_pos hc] at h; cases h
          · rw [if_neg hc] at h; cases h
        · rw [if_neg hnf] at h; cases h
      | ok c =>
        simp only [hl] at h
        by_cases hneg : c.id.getD 0 = -1
        · rw [if_pos hneg] at h
          by_cases hc : reuse = true ∧ e = ErrCode.alreadyExists
          · rw [if_pos hc] at h; cases h
          · rw [if_neg hc] at h; cases h
        · rw [if_neg hneg] at h
          rw [← Except.ok.inj h]
    · rw [if_neg hreuse] at h
      by_cases hc : reuse = true ∧ e = ErrCode.alreadyExists
      · rw [if_pos hc] at h; cases h
      · rw [if_neg hc] at h; cases h
  | ok ru =>
    rw [resolveContextId.eq_def] at h
    simp only [hu] at h
    by_cases hreuse : reuse = true ∧ ctx.id = none
    · rw [if_pos hreuse] at h
      cases hl : lookupResult with
      | error e2 =>
        simp only [hl] at h
        by_cases hnf : e2 = ErrCode.notFound
        · rw [if_pos hnf] at h
          rw [← Except.ok.inj h]
          exact hup ru hu
        · rw [if_neg hnf] at h; cases h
      | ok c =>
        simp only [hl] at h
        by_cases hneg : c.id.getD 0 = -1
        · rw [if_pos hneg] at h
          rw [← Except.ok.inj h]
          exact hup ru hu
        · rw [if_neg hneg] at h
          rw [← Except.ok.inj h]
    · rw [if_neg hreuse] at h
      rw [← Except.ok.inj h]
      exact hup ru hu

/-- Association and attribution inserts do not touch the artifact table. -/
theorem insertAssociationIfNotExist_artifacts {c e : Int} {st st2 : Store}
    (h : insertAssociationIfNotExist c e st = .ok st2) :
    st2.artifacts = st.artifacts := by
  rw [insertAssociationIfNotExist, createAssociation] at h
  by_cases hmem : st.associations.contains (c, e)
  · rw [if_pos hmem] at h
    rw [← Except.ok.inj h]
  · rw [if_neg hmem] at h
    rw [← Except.ok.inj h]

theorem insertAttributionIfNotExist_artifacts {c a : Int} {st st2 : Store}
    (h : insertAttributionIfNotExist c a st = .ok st2) :
    st2.artifacts = st.artifacts := by
  rw [insertAttributionIfNotExist, createAttribution] at h
  by_cases hmem : st.attributions.contains (c, a)
  · rw [if_pos hmem] at h
    rw [← Except.ok.inj h]
  · rw [if_neg hmem] at h
    rw [← Except.ok.inj h]

theorem insertAttributionsForArtifacts_artifacts {c : Int} :
    ∀ {aids : List Int} {st st2 : Store},
      insertAttributionsForArtifacts c aids st = .ok st2 →
      st2.artifacts = st.artifacts := by
  intro aids
  induction aids with
  | nil =>
    intro st st2 h
    rw [insertAttributionsForArtifacts] at h
    rw [← Except.ok.inj h]
  | cons aid rest ih =>
    intro st st2 h
    rw [insertAttributionsForArtifacts] at h
    cases hi : insertAttributionIfNotExist c aid st with
    | error e => rw [hi] at h; cases h
    | ok stm =>
      rw [hi] at h
      simp only [Except.bind] at h
      rw [ih h]
      exact insertAttributionIfNotExist_artifacts hi

/-- The context loop of PutExecution does not touch the artifact table. -/
theorem processContexts_artifacts {reuse : Bool} {eid : Int} {aids : List Int} :
    ∀ {ctxs : List Context} {st : Store} {ids : List Int} {st' : Store},
      processContexts reuse eid aids ctxs st = .ok (ids, st') →
      st'.artifacts = st.artifacts := by
  intro ctxs
  induction ctxs with
  | nil =>
    intro st ids st' h
    rw [processContexts] at h
    have hsnd : st = st' := congrArg Prod.snd (Except.ok.inj h)
    rw [← hsnd]
  | cons ctx rest ih =>
    intro st ids st' h
    rw [processContexts] at h
    cases hr : resolveContextId reuse ctx
        (findContextByTypeIdAndContextName (ctx.type_id.getD 0)
          (ctx.name.getD "") st) (upsertContext ctx st) st with
    | error e => rw [hr] at h; cases h
    | ok r =>
      rw [hr] at h
      simp only [Except.bind] at h
      cases ha : insertAssociationIfNotExist r.1 eid r.2 with
      | error e => simp only [ha] at h; cases h
      | ok st2 =>
        simp only [ha] at h
        cases hb : insertAttributionsForArtifacts r.1 aids st2 with
        | error e => simp only [hb] at h; cases h
        | ok st3 =>
          simp only [hb] at h
          cases hc : processContexts reuse eid aids rest st3 with
          | error e => simp only [hc] at h; cases h
          | ok q =>
            simp only [hc, Except.map] at h
            have hsnd : q.2 = st' := congrArg Prod.snd (Except.ok.inj h)
            rw [← hsnd]
            rw [ih hc, insertAttributionsForArtifacts_artifacts hb,
              insertAssociationIfNotExist_artifacts ha,
              resolveContextId_artifacts
                (fun ru hu => upsertContext_artifacts hu) hr]

/-- Inversion of one pair-loop step: a successful step is a successful
upsert followed by a successful tail, with the produced id consed on. -/
theorem pairStep_ok_inv {r0 : Except ErrCode (Int × Store)} {exec : Execution}
    {eid : Int} {rest : List ArtifactAndEvent} {ids : List Int} {st' : Store}
    (h : r0.bind (fun r => (processPairs exec eid rest r.2).map
        (fun q => (r.1 :: q.1, q.2))) = .ok (ids, st')) :
    ∃ r q, r0 = .ok r ∧ processPairs exec eid rest r.2 = .ok q ∧
      ids = r.1 :: q.1 ∧ st' = q.2 := by
  cases hr : r0 with
  | error e => rw [hr] at h; exact absurd h (by simp [Except.bind])
  | ok r =>
    rw [hr] at h
    simp only [Except.bind] at h
    cases hq : processPairs exec eid rest r.2 with
    | error e => rw [hq] at h; exact absurd h (by simp [Except.map])
    | ok q =>
      rw [hq] at h
      simp only [Except.map] at h
      have hinj := Except.ok.inj h
      exact ⟨r, q, rfl, hq, (congrArg Prod.fst hinj).symm,
        (congrArg Prod.snd hinj).symm⟩

/-- The pair loop produces exactly one artifact id per pair, in order: the
untouched sentinel -1 for an empty pair, the event's artifact id for an
event-only pair, and the upserted artifact's id when an artifact is
present. -/
theorem processPairs_forall2 {exec : Execution} {eid : Int} :
    ∀ {pairs : List ArtifactAndEvent} {st : Store} {ids : List Int} {st' : Store},
      processPairs exec eid pairs st = .ok (ids, st') →
      List.Forall₂ (fun (pair : ArtifactAndEvent) (aid : Int) =>
        (pair.artifact = none → pair.event = none → aid = -1) ∧
        (∀ e, pair.artifact = none → pair.event = some e →
          aid = e.artifact_id.getD 0) ∧
        (∀ a j, pair.artifact = some a → a.id = some j → aid = j) ∧
        (∀ a, pair.artifact = some a → hasArtifactWithId aid st')) pairs ids := by
  intro pairs
  induction pairs with
  | nil =>
    intro st ids st' h
    rw [processPairs] at h
    have hids : ([] : List Int) = ids := congrArg Prod.fst (Except.ok.inj h)
    rw [← hids]
    exact List.Forall₂.nil
  | cons pair rest ih =>
    intro st ids st' h
    obtain ⟨pa, pe⟩ := pair
    cases pe with
    | none =>
      rw [processPairs_cons_none] at h
      obtain ⟨r, q, hu, hrest, hids, hst⟩ := pairStep_ok_inv h
      subst hids
      subst hst
      cases pa with
      | none =>
        rw [upsertArtifactAndEvent_none_none] at hu
        have hr : ((-1 : Int), st) = r := Except.ok.inj hu
        refine List.Forall₂.cons ?_ (ih hrest)
        refine ⟨fun _ _ => ?_, ?_, ?_, ?_⟩
        · rw [← hr]
        · intro e _ he; cases he
        · intro a j ha; cases ha
        · intro a ha; cases ha
      | some a =>
        rw [upsertArtifactAndEvent_some_none] at hu
        refine List.Forall₂.cons ?_ (ih hrest)
        refine ⟨?_, ?_, ?_, ?_⟩
        · intro ha; cases ha
        · intro e ha; cases ha
        · intro a2 j ha hj
          have ha2 : a2 = a := (Option.some.inj ha).symm
          subst ha2
          exact upsertArtifact_some_id hj hu
        · intro a2 _
          exact processPairs_preserves hrest r.1 (upsertArtifact_result_present hu)
    | some ev =>
      by_cases hcond : ev.execution_id.isSome = true ∧
          (exec.id = none ∨ exec.id ≠ ev.execution_id)
      · rw [processPairs_cons_some_err exec eid pa ev rest st hcond] at h
        cases h
      · rw [processPairs_cons_some_ok exec eid pa ev rest st hcond] at h
        obtain ⟨r, q, hu, hrest, hids, hst⟩ := pairStep_ok_inv h
        subst hids
        subst hst
        cases pa with
        | none =>
          cases hea : ev.artifact_id with
          | none =>
            rw [upsertArtifactAndEvent_none_some_err (-1) st (by simp [hea])] at hu
            cases hu
          | some j =>
            rw [upsertArtifactAndEvent_none_some_ok (-1) st (by simp [hea])] at hu
            have hr : (ev.artifact_id.getD 0, createEvent
                { ev with execution_id := some eid } st) = r := Except.ok.inj hu
            refine List.Forall₂.cons ?_ (ih hrest)
            refine ⟨?_, ?_, ?_, ?_⟩
            · intro _ he; cases he
            · intro e _ he
              have he2 : e = ev := (Option.some.inj he).symm
              subst he2
              rw [← hr]
            · intro a2 j2 ha; cases ha
            · intro a2 ha; cases ha
        | some a =>
          by_cases h3 : ({ ev with execution_id := some eid } : Event).artifact_id.isSome = true ∧
              a.id ≠ ({ ev with execution_id := some eid } : Event).artifact_id
          · rw [upsertArtifactAndEvent_some_some_mismatch (-1) st h3] at hu
            cases hu
          · rw [upsertArtifactAndEvent_some_some_ok (-1) st h3] at hu
            cases hua : upsertArtifact a st with
            | error e2 => rw [hua] at hu; exact absurd hu (by simp [Except.bind])
            | ok ra =>
              rw [hua] at hu
              simp only [Except.bind] at hu
              have hr := Except.ok.inj hu
              refine List.Forall₂.cons ?_ (ih hrest)
              refine ⟨?_, ?_, ?_, ?_⟩
              · intro ha; cases ha
              · intro e ha; cases ha
              · intro a2 j ha hj
                have ha2 : a2 = a := (Option.some.inj ha).symm
                subst ha2
                have hfst : ra.1 = r.1 := by rw [← hr]
                rw [← hfst]
                exact upsertArtifact_some_id hj hua
              · intro a2 _
                have hpres : hasArtifactWithId r.1 r.2 := by
                  have hfst : ra.1 = r.1 := by rw [← hr]
                  have hsnd : createEvent
                      { artifact_id := some ra.1, execution_id := some eid } ra.2 = r.2 := by
                    rw [← hr]
                  have h1 : hasArtifactWithId ra.1 ra.2 :=
                    upsertArtifact_result_present
                      (show upsertArtifact a st = .ok (ra.1, ra.2) from hua)
                  rw [← hfst, ← hsnd]
                  exact hasArtifactWithId_congr rfl h1
                exact processPairs_preserves hrest r.1 hpres

/-- C10: on success, PutExecution appends exactly one entry to the
response's `artifact_ids` per `artifact_event_pairs` entry, in request
order: a pair with an artifact contributes that artifact's upserted id (an
artifact with that id is stored), a pair with only an event contributes
that event's `artifact_id`, and a pair with neither contributes the
untouched sentinel -1. -/
theorem putExecution_artifact_ids :
    ∀ (req : PutExecutionRequest) (st : Store) (resp : PutExecutionResponse)
      (st' : Store),
      putExecution req st = .ok (resp, st') →
      resp.artifact_ids.length = req.artifact_event_pairs.length ∧
      List.Forall₂ (fun (pair : ArtifactAndEvent) (aid : Int) =>
        (pair.artifact = none → pair.event = none → aid = -1) ∧
        (∀ e, pair.artifact = none → pair.event = some e →
          aid = e.artifact_id.getD 0) ∧
        (∀ a j, pair.artifact = some a → a.id = some j → aid = j) ∧
        (∀ a, pair.artifact = some a → hasArtifactWithId aid st'))
        req.artifact_event_pairs resp.artifact_ids := by
  intro req st resp st' h
  cases hex : req.execution with
  | none => rw [putExecution, hex] at h; cases h
  | some exec =>
    rw [putExecution] at h
    simp only [hex] at h
    cases hue : upsertExecution exec st with
    | error e => rw [hue] at h; exact absurd h (by simp [Except.bind])
    | ok re =>
      rw [hue] at h
      simp only [Except.bind] at h
      cases hpp : processPairs exec re.1 req.artifact_event_pairs re.2 with
      | error e => rw [hpp] at h; exact absurd h (by simp)
      | ok p =>
        rw [hpp] at h
        simp only [] at h
        cases hpc : processContexts req.reuse_context_if_already_exist re.1 p.1
            req.contexts p.2 with
        | error e => rw [hpc] at h; exact absurd h (by simp [Except.map])
        | ok q =>
          rw [hpc] at h
          simp only [Except.map] at h
          have hinj := Except.ok.inj h
          have hresp : resp = ⟨re.1, p.1, q.1⟩ :=
            (congrArg Prod.fst hinj).symm
          have hst : st' = q.2 := (congrArg Prod.snd hinj).symm
          have hforall := processPairs_forall2 hpp
          have hart : p.2.artifacts = st'.artifacts := by
            rw [hst]
            exact (processContexts_artifacts hpc).symm
          have htrans : List.Forall₂ (fun (pair : ArtifactAndEvent) (aid : Int) =>
              (pair.artifact = none → pair.event = none → aid = -1) ∧
              (∀ e, pair.artifact = none → pair.event = some e →
                aid = e.artifact_id.getD 0) ∧
              (∀ a j, pair.artifact = some a → a.id = some j → aid = j) ∧
              (∀ a, pair.artifact = some a → hasArtifactWithId aid st'))
              req.artifact_event_pairs p.1 :=
            List.Forall₂.imp
              (fun (pair : ArtifactAndEvent) (aid : Int) hc =>
                ⟨hc.1, hc.2.1, hc.2.2.1,
                  fun a ha => hasArtifactWithId_congr hart (hc.2.2.2 a ha)⟩)
              hforall
          rw [hresp]
          exact ⟨htrans.length_eq.symm, htrans⟩

/-- Witness for C10 at a concrete input: a request with one empty pair on
an empty store yields `artifact_ids = [-1]`. -/
theorem putExecution_artifact_ids_witness :
    List.Forall₂ (fun (pair : ArtifactAndEvent) (aid : Int) =>
      (pair.artifact = none → pair.event = none → aid = -1) ∧
      (∀ e, pair.artifact = none → pair.event = some e →
        aid = e.artifact_id.getD 0) ∧
      (∀ a j, pair.artifact = some a → a.id = some j → aid = j) ∧
      (∀ a, pair.artifact = some a → hasArtifactWithId aid
        ⟨[], [⟨some 1, some 1⟩], [], [], [], [], [], 1, 2, 1⟩))
      [⟨none, none⟩] [-1] :=
  (putExecution_artifact_ids
    ⟨some ⟨none, some 1⟩, [⟨none, none⟩], [], false⟩
    ⟨[], [], [], [], [], [], [], 1, 1, 1⟩
    ⟨1, [-1], []⟩
    ⟨[], [⟨some 1, some 1⟩], [], [], [], [], [], 1, 2, 1⟩
    (by rfl)).2

/-- C3: PutExecution's validation: no execution in the request is
INVALID_ARGUMENT (recording nothing); a pair with no artifact whose event
lacks an `artifact_id` is INVALID_ARGUMENT; an event whose `execution_id`
is set but does not match the request execution's id is INVALID_ARGUMENT;
an artifact and event carrying disagreeing ids is INVALID_ARGUMENT; a pair
with neither artifact nor event is skipped; otherwise the event is created
with its `execution_id` set to the captured execution id and its
`artifact_id` set to the captured artifact id. -/
theorem putExecution_validation :
    (∀ (pairs : List ArtifactAndEvent) (contexts : List Context) (reuse : Bool)
        (st : Store),
        putExecution ⟨none, pairs, contexts, reuse⟩ st =
          .error .invalidArgument) ∧
    (∀ (e : Event) (aid0 : Int) (st : Store), e.artifact_id = none →
        upsertArtifactAndEvent ⟨none, some e⟩ aid0 st =
          .error .invalidArgument) ∧
    (∀ (exec : Execution) (eid : Int) (pa : Option Artifact) (ev : Event)
        (rest : List ArtifactAndEvent) (st : Store),
        ev.execution_id.isSome = true →
        (exec.id = none ∨ exec.id ≠ ev.execution_id) →
        processPairs exec eid (⟨pa, some ev⟩ :: rest) st =
          .error .invalidArgument) ∧
    (∀ (a : Artifact) (e : Event) (i j aid0 : Int) (st : Store),
        a.id = some i → e.artifact_id = some j → i ≠ j →
        upsertArtifactAndEvent ⟨some a, some e⟩ aid0 st =
          .error .invalidArgument) ∧
    (∀ (aid0 : Int) (st : Store),
        upsertArtifactAndEvent ⟨none, none⟩ aid0 st = .ok (aid0, st)) ∧
    (∀ (exec : Execution) (eid : Int) (a : Artifact) (e : Event) (st : Store)
        (ids : List Int) (st' : Store),
        processPairs exec eid [⟨some a, some e⟩] st = .ok (ids, st') →
        ∃ aid st1, upsertArtifact a st = .ok (aid, st1) ∧ ids = [aid] ∧
          st'.events = st1.events ++
            [{ e with execution_id := some eid, artifact_id := some aid }]) := by
  refine ⟨?_, ?_, ?_, ?_, ?_, ?_⟩
  · intro pairs contexts reuse st
    rfl
  · intro e aid0 st he
    exact upsertArtifactAndEvent_none_some_err aid0 st he
  · intro exec eid pa ev rest st h1 h2
    exact processPairs_cons_some_err exec eid pa ev rest st ⟨h1, h2⟩
  · intro a e i j aid0 st hi hj hij
    refine upsertArtifactAndEvent_some_some_mismatch aid0 st ⟨by simp [hj], ?_⟩
    rw [hi, hj]
    simp [hij]
  · intro aid0 st
    exact upsertArtifactAndEvent_none_none aid0 st
  · intro exec eid a e st ids st' h
    by_cases hcond : e.execution_id.isSome = true ∧
        (exec.id = none ∨ exec.id ≠ e.execution_id)
    · rw [processPairs_cons_some_err exec eid (some a) e [] st hcond] at h
      cases h
    · rw [processPairs_cons_some_ok exec eid (some a) e [] st hcond] at h
      obtain ⟨r, q, hu, hrest, hids, hst⟩ := pairStep_ok_inv h
      subst hids
      subst hst
      by_cases h3 : ({ e with execution_id := some eid } : Event).artifact_id.isSome = true ∧
          a.id ≠ ({ e with execution_id := some eid } : Event).artifact_id
      · rw [upsertArtifactAndEvent_some_some_mismatch (-1) st h3] at hu
        cases hu
      · rw [upsertArtifactAndEvent_some_some_ok (-1) st h3] at hu
        cases hua : upsertArtifact a st with
        | error e2 => rw [hua] at hu; exact absurd hu (by simp [Except.bind])
        | ok ra =>
          rw [hua] at hu
          simp only [Except.bind] at hu
          have hr := Except.ok.inj hu
          have hfst : ra.1 = r.1 := by rw [← hr]
          have hsnd : createEvent
              { artifact_id := some ra.1, execution_id := some eid } ra.2 = r.2 := by
            rw [← hr]
          rw [processPairs] at hrest
          have hq1 : ([] : List Int) = q.1 :=
            congrArg Prod.fst (Except.ok.inj hrest)
          have hq2 : r.2 = q.2 := congrArg Prod.snd (Except.ok.inj hrest)
          refine ⟨r.1, ra.2, ?_, ?_, ?_⟩
          · rw [← hfst]
          · rw [← hq1]
          · rw [← hq2, ← hsnd, ← hfst]
            rfl

/-- Witness for C3 at concrete inputs: each validation rule exercised on a
small store. -/
theorem putExecution_validation_witness :
    putExecution ⟨none, [], [], false⟩
        ⟨[], [], [], [], [], [], [], 1, 1, 1⟩ = .error .invalidArgument ∧
    upsertArtifactAndEvent ⟨none, some ⟨none, none⟩⟩ (-1)
        ⟨[], [], [], [], [], [], [], 1, 1, 1⟩ = .error .invalidArgument ∧
    processPairs ⟨none, some 1⟩ 5 [⟨none, some ⟨some 1, some 9⟩⟩]
        ⟨[], [], [], [], [], [], [], 1, 1, 1⟩ = .error .invalidArgument ∧
    upsertArtifactAndEvent ⟨some ⟨some 1, none, none⟩, some ⟨some 2, none⟩⟩ (-1)
        ⟨[], [], [], [], [], [], [], 1, 1, 1⟩ = .error .invalidArgument ∧
    upsertArtifactAndEvent ⟨none, none⟩ (-1)
        ⟨[], [], [], [], [], [], [], 1, 1, 1⟩ =
      .ok (-1, ⟨[], [], [], [], [], [], [], 1, 1, 1⟩) := by
  refine ⟨?_, ?_, ?_, ?_, ?_⟩
  · exact putExecution_validation.1 [] [] false _
  · exact putExecution_validation.2.1 ⟨none, none⟩ (-1) _ rfl
  · exact putExecution_validation.2.2.1 ⟨none, some 1⟩ 5 none ⟨some 1, some 9⟩
      [] _ rfl (Or.inl rfl)
  · exact putExecution_validation.2.2.2.1 ⟨some 1, none, none⟩ ⟨some 2, none⟩
      1 2 (-1) _ rfl rfl (by decide)
  · exact putExecution_validation.2.2.2.2.1 (-1) _
